import Mathlib

/-!
# MICS6814 gas sensor driver: calibration and resistance read-out

A shallow embedding of `src/MICS6814.cpp`.

* The hardware collaborator `analogRead` is a function `AnalogIn` from a pin and the
  number of reads performed so far to the raw sample delivered by that read.  Every
  call of `analogRead` advances the read counter (`clock`) by one; `delay` has no
  effect on the values and is not modelled.
* `uint16_t` / `unsigned long` variables are natural numbers, reduced modulo `2^16` /
  `2^32` wherever the source assigns to them.
* The `do ... while` loop of `calibrate` is a step function `calTick` iterated by
  `calLoop`, which takes a bound on the number of ticks and returns `none` when the
  bound is reached before the exit condition holds.
-/

namespace MICS6814

/-! ## Data model -/

/-- Enumeration `channel_t`, with the enumerators used by the `switch` statements. -/
inductive channel_t
  | CH_CO
  | CH_NO2
  | CH_NH3
  deriving DecidableEq, Repr

/-- Enumeration `gas_t`, with the enumerators used by `measure`. -/
inductive gas_t
  | CO
  | NO2
  | NH3
  deriving DecidableEq, Repr

/-- The fields of a `MICS6814` object. -/
structure Sensor where
  _pinCO : Int
  _pinNO2 : Int
  _pinNH3 : Int
  _baseNH3 : Nat
  _baseCO : Nat
  _baseNO2 : Nat
  deriving DecidableEq, Repr

/-- The analog inputs: `env pin k` is the value returned by the `k`-th call of
`analogRead` (counted from 0 over the whole run) when that call reads `pin`. -/
abbrev AnalogIn := Int → Nat → Nat

/-- Reduction to `uint16_t`. -/
def u16 (x : Nat) : Nat := x % 65536

/-- Reduction to `unsigned long` (32 bit). -/
def u32 (x : Nat) : Nat := x % 4294967296

/-! ## `calibrate` -/

/-- Local `seconds` of `calibrate` (line 26). -/
def seconds : Nat := 10

/-- Local `delta` of `calibrate` (line 29). -/
def delta : Nat := 2

/-- The local variables of `calibrate`, together with the read counter `clock`. -/
structure CalState where
  clock : Nat
  bufferNH3 : List Nat
  bufferCO : List Nat
  bufferNO2 : List Nat
  pntrNH3 : Nat
  pntrCO : Nat
  pntrNO2 : Nat
  fltSumNH3 : Nat
  fltSumCO : Nat
  fltSumNO2 : Nat
  curNH3 : Nat
  curCO : Nat
  curNO2 : Nat
  isStableNH3 : Bool
  isStableCO : Bool
  isStableNO2 : Bool
  deriving DecidableEq, Repr

/-- The state on entry to the `do` loop (lines 32-62): zero-filled buffers, cursors and
sums at 0, flags false.  `curX` is not yet assigned in the source; it is written before
it is read, and starts at 0 here. -/
def calInit (clock : Nat) : CalState :=
  { clock := clock
    bufferNH3 := List.replicate seconds 0
    bufferCO := List.replicate seconds 0
    bufferNO2 := List.replicate seconds 0
    pntrNH3 := 0, pntrCO := 0, pntrNO2 := 0
    fltSumNH3 := 0, fltSumCO := 0, fltSumNO2 := 0
    curNH3 := 0, curCO := 0, curNO2 := 0
    isStableNH3 := false, isStableCO := false, isStableNO2 := false }

/-- Lines 69-78 (and 79-88, 89-98): `rs = 0; for (i < 3) rs += analogRead (pin);` followed
by `cur = rs / 3`, the three reads being reads number `clock`, `clock + 1`, `clock + 2`. -/
def readCur (env : AnalogIn) (pin : Int) (clock : Nat) : Nat :=
  let rs := u32 (u32 (u32 (0 + env pin clock) + env pin (clock + 1)) + env pin (clock + 2))
  u16 (rs / 3)

/-- Lines 102-104: `fltSum = fltSum + cur - buffer [pntr]` in 16-bit unsigned arithmetic
(the three operands are `uint16_t`, the result is stored in a `uint16_t`). -/
def updSum (fltSum cur old : Nat) : Nat :=
  u16 (fltSum + cur + (65536 - u16 old))

/-- Lines 112-114: `abs (fltSum / seconds - cur) < delta`.

The operands are `uint16_t` and the header that fixes the target is not part of the
sources, so the flag `unsignedDiff` chooses between the two readings of this line.
With `unsignedDiff = false` the operands are promoted to a signed `int` wider than 16
bits: the difference is the exact integer difference and `abs` is the absolute value.
With `unsignedDiff = true` (`int` of 16 bits, `abs` the Arduino macro
`((x)>0?(x):-(x))`) the difference is taken in 16-bit unsigned arithmetic and `abs`
leaves it unchanged. -/
def stableTest (unsignedDiff : Bool) (fltSum cur : Nat) : Bool :=
  if unsignedDiff then
    decide (u16 (fltSum / seconds + (65536 - u16 cur)) < delta)
  else
    decide (Int.natAbs ((fltSum / seconds : Nat) - (cur : Int)) < delta)

/-- One pass through the body of the `do` loop (lines 67-119). -/
def calTick (ud : Bool) (dev : Sensor) (env : AnalogIn) (s : CalState) : CalState :=
  let curNH3 := readCur env dev._pinNH3 s.clock
  let curCO := readCur env dev._pinCO (s.clock + 3)
  let curNO2 := readCur env dev._pinNO2 (s.clock + 6)
  let fltSumNH3 := updSum s.fltSumNH3 curNH3 (s.bufferNH3.getD s.pntrNH3 0)
  let fltSumCO := updSum s.fltSumCO curCO (s.bufferCO.getD s.pntrCO 0)
  let fltSumNO2 := updSum s.fltSumNO2 curNO2 (s.bufferNO2.getD s.pntrNO2 0)
  { clock := s.clock + 9
    bufferNH3 := s.bufferNH3.set s.pntrNH3 curNH3
    bufferCO := s.bufferCO.set s.pntrCO curCO
    bufferNO2 := s.bufferNO2.set s.pntrNO2 curNO2
    pntrNH3 := (s.pntrNH3 + 1) % seconds
    pntrCO := (s.pntrCO + 1) % seconds
    pntrNO2 := (s.pntrNO2 + 1) % seconds
    fltSumNH3 := fltSumNH3
    fltSumCO := fltSumCO
    fltSumNO2 := fltSumNO2
    curNH3 := curNH3
    curCO := curCO
    curNO2 := curNO2
    isStableNH3 := stableTest ud fltSumNH3 curNH3
    isStableCO := stableTest ud fltSumCO curCO
    isStableNO2 := stableTest ud fltSumNO2 curNO2 }

/-- The loop condition of line 120: `! isStableNH3 || ! isStableCO || ! isStableNO2`. -/
def keepGoing (s : CalState) : Bool :=
  !s.isStableNH3 || !s.isStableCO || !s.isStableNO2

/-- The `do ... while` loop of lines 65-120, run for at most `fuel` ticks.  `n` is the
number of ticks already done; the result is the number of ticks done when the loop
exits and the state at that moment, or `none` when `fuel` ticks were not enough. -/
def calLoop (ud : Bool) (dev : Sensor) (env : AnalogIn) : Nat → Nat → CalState →
    Option (Nat × CalState)
  | 0, _, _ => none
  | fuel + 1, n, s =>
    let s1 := calTick ud dev env s
    if keepGoing s1 then calLoop ud dev env fuel (n + 1) s1 else some (n + 1, s1)

/-- `MICS6814::calibrate` (lines 21-125), the reads starting at read number `clock`:
the number of ticks the loop took and the object with the new baselines. -/
def calibrate (ud : Bool) (dev : Sensor) (env : AnalogIn) (clock fuel : Nat) :
    Option (Nat × Sensor) :=
  match calLoop ud dev env fuel 0 (calInit clock) with
  | none => none
  | some (n, s) =>
    some (n, { dev with
      _baseNH3 := u16 (s.fltSumNH3 / seconds)
      _baseCO := u16 (s.fltSumCO / seconds)
      _baseNO2 := u16 (s.fltSumNO2 / seconds) })

/-- The state of the loop variables after `n` ticks when the loop is not left. -/
def calRun (ud : Bool) (dev : Sensor) (env : AnalogIn) (clock : Nat) : Nat → CalState
  | 0 => calInit clock
  | n + 1 => calTick ud dev env (calRun ud dev env clock n)

/-- `MICS6814::loadCalibrationData` (lines 127-135). -/
def loadCalibrationData (dev : Sensor) (baseNH3 baseCO baseNO2 : Nat) : Sensor :=
  { dev with _baseNH3 := baseNH3, _baseCO := baseCO, _baseNO2 := baseNO2 }

/-- `MICS6814::getBaseResistance` (lines 213-226). -/
def getBaseResistance (dev : Sensor) : channel_t → Nat
  | .CH_NH3 => dev._baseNH3
  | .CH_CO => dev._baseCO
  | .CH_NO2 => dev._baseNO2

/-! ## Auxiliary definitions: one channel at a time

The body of the loop treats the three channels by three copies of the same statements.
`Chan` is one channel's share of the loop variables and `chanTick` one copy of the
statements; `calTick_chanNH3` and its siblings relate them to `calTick`. -/

/-- One channel's share of the loop variables. -/
structure Chan where
  buffer : List Nat
  pntr : Nat
  fltSum : Nat
  cur : Nat
  isStable : Bool
  deriving DecidableEq, Repr

/-- The NH3 variables of a loop state. -/
def CalState.chanNH3 (s : CalState) : Chan :=
  ⟨s.bufferNH3, s.pntrNH3, s.fltSumNH3, s.curNH3, s.isStableNH3⟩

/-- The CO variables of a loop state. -/
def CalState.chanCO (s : CalState) : Chan :=
  ⟨s.bufferCO, s.pntrCO, s.fltSumCO, s.curCO, s.isStableCO⟩

/-- The NO2 variables of a loop state. -/
def CalState.chanNO2 (s : CalState) : Chan :=
  ⟨s.bufferNO2, s.pntrNO2, s.fltSumNO2, s.curNO2, s.isStableNO2⟩

/-- One channel's variables on entry to the loop. -/
def chanInit : Chan := ⟨List.replicate seconds 0, 0, 0, 0, false⟩

/-- Lines 102, 107, 112, 117 for one channel whose reading of this tick is `r`. -/
def chanTick (ud : Bool) (r : Nat) (c : Chan) : Chan :=
  let fltSum := updSum c.fltSum r (c.buffer.getD c.pntr 0)
  ⟨c.buffer.set c.pntr r, (c.pntr + 1) % seconds, fltSum, r, stableTest ud fltSum r⟩

/-- One channel's variables after `n` ticks, `rd t` being the reading of tick `t`
(ticks counted from 0). -/
def chanRun (ud : Bool) (rd : Nat → Nat) : Nat → Chan
  | 0 => chanInit
  | n + 1 => chanTick ud (rd n) (chanRun ud rd n)

/-- The NH3 reading `curNH3` taken in tick `t` (counted from 0) of a calibration whose
first read is read number `clock`. -/
def readingNH3 (dev : Sensor) (env : AnalogIn) (clock t : Nat) : Nat :=
  readCur env dev._pinNH3 (clock + 9 * t)

/-- The CO reading `curCO` taken in tick `t` (counted from 0). -/
def readingCO (dev : Sensor) (env : AnalogIn) (clock t : Nat) : Nat :=
  readCur env dev._pinCO (clock + 9 * t + 3)

/-- The NO2 reading `curNO2` taken in tick `t` (counted from 0). -/
def readingNO2 (dev : Sensor) (env : AnalogIn) (clock t : Nat) : Nat :=
  readCur env dev._pinNO2 (clock + 9 * t + 6)

/-- The sum of the readings of the last `min t 10` ticks before tick `t`: the readings
of ticks `t - 1`, `t - 2`, ..., `t - min t 10` (ticks counted from 0). -/
def windowSum (rd : Nat → Nat) (t : Nat) : Nat :=
  ∑ k in Finset.range (min t seconds), rd (t - 1 - k)

/-- The exit test of the loop evaluated on the variables of a state: all three
channels pass `stableTest` on their running sum and reading of that tick. -/
def allStable (ud : Bool) (s : CalState) : Bool :=
  stableTest ud s.fltSumNH3 s.curNH3 && stableTest ud s.fltSumCO s.curCO &&
    stableTest ud s.fltSumNO2 s.curNO2

/-- What holds of one channel's variables after `n` ticks with readings `rd`:
the buffer has 10 entries, the cursor is `n mod 10`, the entry the cursor will reach
`j - n` ticks from now holds the reading of tick `j - 10` (or the initial 0), and the
running sum is both the window sum and the sum of the buffer. -/
structure ChanInv (rd : Nat → Nat) (n : Nat) (c : Chan) : Prop where
  len : c.buffer.length = 10
  pntr : c.pntr = n % 10
  entry : ∀ j, n ≤ j → j < n + 10 →
    c.buffer.getD (j % 10) 0 = if 10 ≤ j then rd (j - 10) else 0
  sum : c.fltSum = windowSum rd n
  bsum : c.fltSum = c.buffer.sum

/-! ## `getResistance`, `getCurrentRatio`, `measure` -/

/-- The `for` loops of lines 188-193, 195-200 and 202-207: `n` passes of
`rs += analogRead (pin); counter ++;` on the triple `(rs, counter, clock)`. -/
def sampleLoop (env : AnalogIn) (pin : Int) : Nat → Nat × Nat × Nat → Nat × Nat × Nat
  | 0, st => st
  | n + 1, (rs, counter, clock) =>
    sampleLoop env pin n (u32 (rs + env pin clock), counter + 1, clock + 1)

/-- The `switch` of lines 185-208, giving `(rs, counter, clock)` at line 210.  No case
ends in `break`, so control falls from the loop of `CH_CO` into the loop of `CH_NO2`
and from there into the loop of `CH_NH3`. -/
def getResistanceAcc (dev : Sensor) (env : AnalogIn) (clock : Nat) :
    channel_t → Nat × Nat × Nat
  | .CH_CO =>
    sampleLoop env dev._pinNH3 100
      (sampleLoop env dev._pinNO2 100 (sampleLoop env dev._pinCO 100 (0, 0, clock)))
  | .CH_NO2 =>
    sampleLoop env dev._pinNH3 100 (sampleLoop env dev._pinNO2 100 (0, 0, clock))
  | .CH_NH3 => sampleLoop env dev._pinNH3 100 (0, 0, clock)

/-- `MICS6814::getResistance` (lines 180-211), the reads starting at read number
`clock`: `counter != 0 ? rs / counter : 0` as a `uint16_t`. -/
def getResistance (dev : Sensor) (env : AnalogIn) (clock : Nat) (channel : channel_t) : Nat :=
  let acc := getResistanceAcc dev env clock channel
  if acc.2.1 ≠ 0 then u16 (acc.1 / acc.2.1) else 0

/-- The number of raw samples `getResistance` takes (the final `counter`). -/
def getResistanceSamples (dev : Sensor) (env : AnalogIn) (clock : Nat)
    (channel : channel_t) : Nat :=
  (getResistanceAcc dev env clock channel).2.1

/-- Values of the floating-point computations of `getCurrentRatio` and `measure`: a
finite value, an infinity with its sign (`neg = true` for the negative one), or
not-a-number.  Finite values are exact rationals: rounding is not modelled, nor is the
sign of a zero (every zero divisor of this program is `+0`: the conversion of an
unsigned 0, or `1023.0 - 1023.0`). -/
inductive FloatVal
  | fin (q : ℚ)
  | inf (neg : Bool)
  | nan
  deriving DecidableEq

/-- Floating-point subtraction. -/
def FloatVal.sub : FloatVal → FloatVal → FloatVal
  | .fin a, .fin b => .fin (a - b)
  | .fin _, .inf s => .inf (!s)
  | .inf s, .fin _ => .inf s
  | .inf s, .inf t => if s = t then .nan else .inf s
  | _, _ => .nan

/-- Floating-point multiplication. -/
def FloatVal.mul : FloatVal → FloatVal → FloatVal
  | .fin a, .fin b => .fin (a * b)
  | .fin a, .inf s => if a = 0 then .nan else .inf (xor (decide (a < 0)) s)
  | .inf s, .fin b => if b = 0 then .nan else .inf (xor s (decide (b < 0)))
  | .inf s, .inf t => .inf (xor s t)
  | _, _ => .nan

/-- Floating-point division; a zero divisor is `+0`. -/
def FloatVal.div : FloatVal → FloatVal → FloatVal
  | .fin a, .fin b =>
    if b = 0 then (if a = 0 then .nan else .inf (decide (a < 0))) else .fin (a / b)
  | .fin _, .inf _ => .fin 0
  | .inf s, .fin b => .inf (xor s (decide (b < 0)))
  | _, _ => .nan

/-- `MICS6814::getCurrentRatio` (lines 237-245):
`resistance / baseResistance * (1023.0 - baseResistance) / (1023.0 - resistance)`,
the base resistance being fetched before the resistance is measured. -/
def getCurrentRatio (dev : Sensor) (env : AnalogIn) (clock : Nat) (channel : channel_t) :
    FloatVal :=
  let baseResistance := FloatVal.fin (getBaseResistance dev channel)
  let resistance := FloatVal.fin (getResistance dev env clock channel)
  (((resistance.div baseResistance).mul ((FloatVal.fin 1023).sub baseResistance)).div
    ((FloatVal.fin 1023).sub resistance))

/-- Line 167: `isnan (c) ? -1 : c`. -/
def nanToMinusOne : FloatVal → FloatVal
  | .nan => .fin (-1)
  | c => c

/-- `MICS6814::measure` (lines 146-168).  The library function `pow` is a parameter:
`pow x y` is the value of `pow (x, y)` for a floating-point base `x` and the constant
exponent `y`. -/
def measure (pow : FloatVal → ℚ → FloatVal) (dev : Sensor) (env : AnalogIn) (clock : Nat) :
    gas_t → FloatVal
  | .CO =>
    let ratio := getCurrentRatio dev env clock .CH_CO
    nanToMinusOne ((pow ratio (-1179 / 1000)).mul (.fin (4385 / 1000)))
  | .NO2 =>
    let ratio := getCurrentRatio dev env clock .CH_NO2
    nanToMinusOne ((pow ratio (1007 / 1000)).div (.fin (6855 / 1000)))
  | .NH3 =>
    let ratio := getCurrentRatio dev env clock .CH_NH3
    nanToMinusOne ((pow ratio (-167 / 100)).div (.fin (147 / 100)))

/-- The channel whose ratio `measure` takes for a gas (the `case` labels of lines
153-164). -/
def gasChannel : gas_t → channel_t
  | .CO => .CH_CO
  | .NO2 => .CH_NO2
  | .NH3 => .CH_NH3

/-- What is assumed of the library function `pow`: the special values the C standard
fixes (Annex F: a not-a-number base with a non-zero exponent, base 1, an infinite base
with a negative or positive exponent that is not an integer) and, for a finite positive
base, a finite positive result (no underflow to 0 and no overflow). -/
structure PowSpec (pow : FloatVal → ℚ → FloatVal) : Prop where
  nan : ∀ y, y ≠ 0 → pow .nan y = .nan
  one : ∀ y, pow (.fin 1) y = .fin 1
  posInf_neg : ∀ y, y < 0 → pow (.inf false) y = .fin 0
  posInf_pos : ∀ y, 0 < y → pow (.inf false) y = .inf false
  negInf_neg : ∀ y, y.den ≠ 1 → y < 0 → pow (.inf true) y = .fin 0
  negInf_pos : ∀ y, y.den ≠ 1 → 0 < y → pow (.inf true) y = .inf false
  pos : ∀ x y, 0 < x → ∃ q, 0 < q ∧ pow (.fin x) y = .fin q

/-- A function with the properties `PowSpec`, to instantiate statements about `measure`:
the special values of `pow`, and for a finite positive base the power with the
exponent rounded down to an integer, a rational stand-in for the real power. -/
def powSample : FloatVal → ℚ → FloatVal
  | .nan, y => if y = 0 then .fin 1 else .nan
  | .inf _, y => if y < 0 then .fin 0 else if y = 0 then .fin 1 else .inf false
  | .fin x, y =>
    if 0 < x then .fin (x ^ ⌊y⌋)
    else if x = 0 then (if y < 0 then .inf false else if y = 0 then .fin 1 else .fin 0)
    else if y = 0 then .fin 1 else .nan

/-- The input of a calibration started at read number `clock` in which every raw sample
of an even tick is 1023 and every raw sample of an odd tick is 0 (ticks counted from 0,
9 reads a tick), on every pin. -/
def alternating (clock : Nat) : AnalogIn :=
  fun _ i => if (i - clock) / 9 % 2 = 0 then 1023 else 0

/-! ## The loop and its free-running state sequence -/

theorem calRun_clock (ud : Bool) (dev : Sensor) (env : AnalogIn) (clock n : Nat) :
    (calRun ud dev env clock n).clock = clock + 9 * n := by
  induction n with
  | zero => rfl
  | succ n ih => simp only [calRun, calTick, ih]; omega

theorem calTick_chanNH3 (ud : Bool) (dev : Sensor) (env : AnalogIn) (s : CalState) :
    (calTick ud dev env s).chanNH3 = chanTick ud (readCur env dev._pinNH3 s.clock) s.chanNH3 :=
  rfl

theorem calTick_chanCO (ud : Bool) (dev : Sensor) (env : AnalogIn) (s : CalState) :
    (calTick ud dev env s).chanCO =
      chanTick ud (readCur env dev._pinCO (s.clock + 3)) s.chanCO :=
  rfl

theorem calTick_chanNO2 (ud : Bool) (dev : Sensor) (env : AnalogIn) (s : CalState) :
    (calTick ud dev env s).chanNO2 =
      chanTick ud (readCur env dev._pinNO2 (s.clock + 6)) s.chanNO2 :=
  rfl

theorem calRun_chanNH3 (ud : Bool) (dev : Sensor) (env : AnalogIn) (clock n : Nat) :
    (calRun ud dev env clock n).chanNH3 = chanRun ud (readingNH3 dev env clock) n := by
  induction n with
  | zero => rfl
  | succ n ih => rw [calRun, calTick_chanNH3, ih, calRun_clock]; rfl

theorem calRun_chanCO (ud : Bool) (dev : Sensor) (env : AnalogIn) (clock n : Nat) :
    (calRun ud dev env clock n).chanCO = chanRun ud (readingCO dev env clock) n := by
  induction n with
  | zero => rfl
  | succ n ih => rw [calRun, calTick_chanCO, ih, calRun_clock]; rfl

theorem calRun_chanNO2 (ud : Bool) (dev : Sensor) (env : AnalogIn) (clock n : Nat) :
    (calRun ud dev env clock n).chanNO2 = chanRun ud (readingNO2 dev env clock) n := by
  induction n with
  | zero => rfl
  | succ n ih => rw [calRun, calTick_chanNO2, ih, calRun_clock]; rfl

/-- After a tick the three flags are the three tests on that tick's sums and readings. -/
theorem keepGoing_calTick (ud : Bool) (dev : Sensor) (env : AnalogIn) (s : CalState) :
    keepGoing (calTick ud dev env s) = !allStable ud (calTick ud dev env s) := by
  simp only [keepGoing, allStable, calTick]
  cases stableTest ud _ _ <;> cases stableTest ud _ _ <;> cases stableTest ud _ _ <;> rfl

/-- Iterating `calTick` from an arbitrary state. -/
theorem calLoop_spec (ud : Bool) (dev : Sensor) (env : AnalogIn) (fuel n : Nat)
    (s : CalState) (m : Nat) (s1 : CalState) :
    calLoop ud dev env fuel n s = some (m, s1) ↔
      ∃ j, j < fuel ∧ m = n + j + 1 ∧ s1 = (calTick ud dev env)^[j + 1] s ∧
        keepGoing s1 = false ∧
        ∀ i, i < j → keepGoing ((calTick ud dev env)^[i + 1] s) = true := by
  induction fuel generalizing n s with
  | zero => simp [calLoop]
  | succ fuel ih =>
    simp only [calLoop]
    by_cases hk : keepGoing (calTick ud dev env s) = true
    · rw [if_pos hk, ih]
      constructor
      · rintro ⟨j, hj, hm, hs, hkg, hall⟩
        refine ⟨j + 1, by omega, by omega, ?_, hkg, ?_⟩
        · rw [hs]; simp [Function.iterate_succ_apply]
        · intro i hi
          cases i with
          | zero => simpa using hk
          | succ i =>
            have := hall i (by omega)
            simpa [Function.iterate_succ_apply] using this
      · rintro ⟨j, hj, hm, hs, hkg, hall⟩
        cases j with
        | zero =>
          simp only [zero_add, Function.iterate_one] at hs
          rw [hs, hk] at hkg
          exact absurd hkg (by simp)
        | succ j =>
          refine ⟨j, by omega, by omega, ?_, hkg, ?_⟩
          · rw [hs]; simp [Function.iterate_succ_apply]
          · intro i hi
            have := hall (i + 1) (by omega)
            simpa [Function.iterate_succ_apply] using this
    · rw [if_neg hk]
      have hk2 : keepGoing (calTick ud dev env s) = false := by simpa using hk
      constructor
      · intro h
        simp only [Option.some.injEq, Prod.mk.injEq] at h
        refine ⟨0, by omega, by omega, ?_, ?_, ?_⟩
        · simp [← h.2]
        · rw [← h.2]; exact hk2
        · intro i hi; omega
      · rintro ⟨j, hj, hm, hs, hkg, hall⟩
        cases j with
        | zero =>
          simp only [Option.some.injEq, Prod.mk.injEq]
          refine ⟨by omega, ?_⟩
          rw [hs]; simp
        | succ j =>
          have := hall 0 (by omega)
          simp only [zero_add, Function.iterate_one] at this
          rw [this] at hk2
          exact absurd hk2 (by simp)

theorem calRun_eq_iterate (ud : Bool) (dev : Sensor) (env : AnalogIn) (clock n : Nat) :
    calRun ud dev env clock n = (calTick ud dev env)^[n] (calInit clock) := by
  induction n with
  | zero => rfl
  | succ n ih => rw [calRun, ih, Function.iterate_succ_apply']

/-! ## Arithmetic of the readings and of the window -/

theorem sum_set_getD (l : List Nat) (p v : Nat) (h : p < l.length) :
    (l.set p v).sum + l.getD p 0 = l.sum + v := by
  induction l generalizing p with
  | nil => simp at h
  | cons a l ih =>
    cases p with
    | zero => simp; omega
    | succ p =>
      have := ih p (by simpa using h)
      simp only [List.set_cons_succ, List.sum_cons, List.getD_cons_succ] at *
      omega

theorem getD_set_eq (l : List Nat) (p v : Nat) (h : p < l.length) :
    (l.set p v).getD p 0 = v := by
  simp [List.getD_eq_getElem?_getD, h]

theorem getD_set_ne (l : List Nat) (p i v : Nat) (h : p ≠ i) :
    (l.set p v).getD i 0 = l.getD i 0 := by
  simp [List.getD_eq_getElem?_getD, List.getElem?_set_ne h]

theorem readCur_le (env : AnalogIn) (henv : ∀ p i, env p i ≤ 1023) (pin : Int) (clock : Nat) :
    readCur env pin clock ≤ 1023 := by
  have h0 := henv pin clock
  have h1 := henv pin (clock + 1)
  have h2 := henv pin (clock + 2)
  simp only [readCur, u32, u16]
  omega

theorem readCur_const (env : AnalogIn) (pin : Int) (clock c : Nat) (hc : c ≤ 1023)
    (henv : ∀ i, env pin i = c) : readCur env pin clock = c := by
  simp only [readCur, u32, u16, henv]
  have e1 : (0 + c) % 4294967296 = c := by omega
  have e2 : (c + c) % 4294967296 = c + c := by omega
  have e3 : (c + c + c) % 4294967296 = c + c + c := by omega
  have e4 : (c + c + c) / 3 = c := by omega
  rw [e1, e2, e3, e4]
  omega

theorem windowSum_le (rd : Nat → Nat) (hrd : ∀ t, rd t ≤ 1023) (n : Nat) :
    windowSum rd n ≤ 10230 := by
  unfold windowSum
  calc ∑ k in Finset.range (min n seconds), rd (n - 1 - k)
      ≤ ∑ _k in Finset.range (min n seconds), 1023 := Finset.sum_le_sum (fun k _ => hrd _)
    _ = min n seconds * 1023 := by simp
    _ ≤ 10230 := by simp only [seconds]; omega

theorem windowSum_succ (rd : Nat → Nat) (n : Nat) :
    windowSum rd (n + 1) + (if 10 ≤ n then rd (n - 10) else 0) = windowSum rd n + rd n := by
  unfold windowSum seconds
  by_cases h : 10 ≤ n
  · rw [if_pos h, min_eq_right (by omega), min_eq_right h]
    have e1 : rd (n - 10) = (fun k => rd (n + 1 - 1 - k)) 10 := by simp
    rw [e1, ← Finset.sum_range_succ (fun k => rd (n + 1 - 1 - k)) 10,
      Finset.sum_range_succ' (fun k => rd (n + 1 - 1 - k)) 10]
    have e : ∀ k, rd (n - (k + 1)) = rd (n - 1 - k) :=
      fun k => congrArg rd (by omega)
    simp only [e, Nat.add_sub_cancel, Nat.sub_zero]
  · rw [if_neg h, min_eq_left (by omega), min_eq_left (by omega), Nat.add_zero,
      Finset.sum_range_succ' (fun k => rd (n + 1 - 1 - k)) n]
    have e : ∀ k, rd (n - (k + 1)) = rd (n - 1 - k) :=
      fun k => congrArg rd (by omega)
    simp only [e, Nat.add_sub_cancel, Nat.sub_zero]

theorem windowSum_const (c n : Nat) : windowSum (fun _ => c) n = min n 10 * c := by
  simp [windowSum, seconds]


/-! ## One channel: the window invariant -/

theorem chanInv_init (rd : Nat → Nat) : ChanInv rd 0 chanInit := by
  refine ⟨by simp [chanInit, seconds], rfl, ?_, by simp [chanInit, windowSum],
    by simp [chanInit]⟩
  intro j _ hj
  have h10 : ¬ 10 ≤ j := by omega
  rw [if_neg h10]
  simp only [chanInit, List.getD_eq_getElem?_getD, List.getElem?_replicate]
  split <;> rfl

theorem chanInv_tick (ud : Bool) (rd : Nat → Nat) (hrd : ∀ t, rd t ≤ 1023) (n : Nat)
    (c : Chan) (h : ChanInv rd n c) : ChanInv rd (n + 1) (chanTick ud (rd n) c) := by
  have hp : c.pntr < c.buffer.length := by rw [h.len, h.pntr]; omega
  have hold : c.buffer.getD c.pntr 0 = if 10 ≤ n then rd (n - 10) else 0 := by
    rw [h.pntr]; exact h.entry n (le_refl n) (by omega)
  have hW := windowSum_succ rd n
  have hle := windowSum_le rd hrd (n + 1)
  have hset := sum_set_getD c.buffer c.pntr (rd n) hp
  have holdle : c.buffer.getD c.pntr 0 ≤ 1023 := by
    rw [hold]; split
    · exact hrd _
    · omega
  have hsum : (chanTick ud (rd n) c).fltSum = windowSum rd (n + 1) := by
    simp only [chanTick, updSum, u16]
    rw [← hold] at hW
    rw [h.sum]
    omega
  refine ⟨by simp [chanTick, h.len], ?_, ?_, hsum, ?_⟩
  · simp only [chanTick, seconds, h.pntr]; omega
  · intro j hj1 hj2
    simp only [chanTick]
    by_cases hj : j = n + 10
    · subst hj
      have e : (n + 10) % 10 = c.pntr := by rw [h.pntr]; omega
      rw [e, getD_set_eq _ _ _ hp, if_pos (by omega)]
      simp
    · have hne : c.pntr ≠ j % 10 := by rw [h.pntr]; omega
      rw [getD_set_ne _ _ _ _ hne]
      exact h.entry j (by omega) (by omega)
  · rw [hsum]
    simp only [chanTick]
    rw [← hold, ← h.sum, h.bsum] at hW
    omega

theorem chanInv_run (ud : Bool) (rd : Nat → Nat) (hrd : ∀ t, rd t ≤ 1023) (n : Nat) :
    ChanInv rd n (chanRun ud rd n) := by
  induction n with
  | zero => exact chanInv_init rd
  | succ n ih => exact chanInv_tick ud rd hrd n _ ih

/-! ## `calibrate` in terms of the state sequence -/

theorem allStable_calRun_succ (ud : Bool) (dev : Sensor) (env : AnalogIn) (clock n : Nat) :
    keepGoing (calRun ud dev env clock (n + 1)) =
      !allStable ud (calRun ud dev env clock (n + 1)) := by
  rw [calRun]; exact keepGoing_calTick ud dev env _

/-- The loop exits after `t` ticks exactly when tick `t` is the first at which the three
tests pass together, and the baselines are then taken from the sums of tick `t`. -/
theorem calibrate_eq_some_iff (ud : Bool) (dev : Sensor) (env : AnalogIn)
    (clock fuel t : Nat) (dev1 : Sensor) :
    calibrate ud dev env clock fuel = some (t, dev1) ↔
      1 ≤ t ∧ t ≤ fuel ∧ allStable ud (calRun ud dev env clock t) = true ∧
        (∀ k, 1 ≤ k → k < t → allStable ud (calRun ud dev env clock k) = false) ∧
        dev1 = { dev with
          _baseNH3 := u16 ((calRun ud dev env clock t).fltSumNH3 / seconds)
          _baseCO := u16 ((calRun ud dev env clock t).fltSumCO / seconds)
          _baseNO2 := u16 ((calRun ud dev env clock t).fltSumNO2 / seconds) } := by
  unfold calibrate
  constructor
  · intro h
    cases hl : calLoop ud dev env fuel 0 (calInit clock) with
    | none => rw [hl] at h; simp at h
    | some r =>
      obtain ⟨m, s1⟩ := r
      rw [hl] at h
      simp only [Option.some.injEq, Prod.mk.injEq] at h
      obtain ⟨hm, hd⟩ := h
      subst hm
      obtain ⟨j, hj, hmj, hs, hkg, hall⟩ := (calLoop_spec ud dev env fuel 0 _ m s1).1 hl
      have hs1 : s1 = calRun ud dev env clock m := by
        rw [hs, calRun_eq_iterate, hmj]; simp
      subst hmj
      refine ⟨by omega, by omega, ?_, ?_, ?_⟩
      · rw [hs1] at hkg
        have e := allStable_calRun_succ ud dev env clock (0 + j)
        rw [hkg] at e
        simpa using e.symm
      · intro k hk1 hk2
        obtain ⟨i, rfl⟩ : ∃ i, k = i + 1 := ⟨k - 1, by omega⟩
        have hi := hall i (by omega)
        rw [← calRun_eq_iterate, allStable_calRun_succ] at hi
        simpa using hi
      · rw [← hd, hs1]
  · rintro ⟨h1, h2, hst, hall, hd⟩
    obtain ⟨j, rfl⟩ : ∃ j, t = j + 1 := ⟨t - 1, by omega⟩
    have hl : calLoop ud dev env fuel 0 (calInit clock) =
        some (j + 1, calRun ud dev env clock (j + 1)) := by
      rw [calLoop_spec]
      refine ⟨j, by omega, by omega, calRun_eq_iterate _ _ _ _ _, ?_, ?_⟩
      · rw [allStable_calRun_succ, hst]; rfl
      · intro i hi
        rw [← calRun_eq_iterate, allStable_calRun_succ, hall (i + 1) (by omega) (by omega)]
        rfl
    rw [hl, hd]

/-- The exit tick and the result do not depend on the bound, once it is large enough. -/
theorem calibrate_fuel_mono (ud : Bool) (dev : Sensor) (env : AnalogIn)
    (clock fuel fuel1 t : Nat) (dev1 : Sensor) (hf : fuel ≤ fuel1)
    (h : calibrate ud dev env clock fuel = some (t, dev1)) :
    calibrate ud dev env clock fuel1 = some (t, dev1) := by
  rw [calibrate_eq_some_iff] at h ⊢
  exact ⟨h.1, by omega, h.2.2⟩

/-! ## The state sequence, channel by channel -/

theorem readingNH3_le (dev : Sensor) (env : AnalogIn) (henv : ∀ p i, env p i ≤ 1023)
    (clock t : Nat) : readingNH3 dev env clock t ≤ 1023 := readCur_le env henv _ _

theorem readingCO_le (dev : Sensor) (env : AnalogIn) (henv : ∀ p i, env p i ≤ 1023)
    (clock t : Nat) : readingCO dev env clock t ≤ 1023 := readCur_le env henv _ _

theorem readingNO2_le (dev : Sensor) (env : AnalogIn) (henv : ∀ p i, env p i ≤ 1023)
    (clock t : Nat) : readingNO2 dev env clock t ≤ 1023 := readCur_le env henv _ _

theorem calRun_invNH3 (ud : Bool) (dev : Sensor) (env : AnalogIn) (clock : Nat)
    (hrd : ∀ t, readingNH3 dev env clock t ≤ 1023) (n : Nat) :
    ChanInv (readingNH3 dev env clock) n (calRun ud dev env clock n).chanNH3 := by
  rw [calRun_chanNH3]; exact chanInv_run ud _ hrd n

theorem calRun_invCO (ud : Bool) (dev : Sensor) (env : AnalogIn) (clock : Nat)
    (hrd : ∀ t, readingCO dev env clock t ≤ 1023) (n : Nat) :
    ChanInv (readingCO dev env clock) n (calRun ud dev env clock n).chanCO := by
  rw [calRun_chanCO]; exact chanInv_run ud _ hrd n

theorem calRun_invNO2 (ud : Bool) (dev : Sensor) (env : AnalogIn) (clock : Nat)
    (hrd : ∀ t, readingNO2 dev env clock t ≤ 1023) (n : Nat) :
    ChanInv (readingNO2 dev env clock) n (calRun ud dev env clock n).chanNO2 := by
  rw [calRun_chanNO2]; exact chanInv_run ud _ hrd n

theorem calRun_curNH3 (ud : Bool) (dev : Sensor) (env : AnalogIn) (clock n : Nat) :
    (calRun ud dev env clock (n + 1)).curNH3 = readingNH3 dev env clock n := by
  have := congrArg Chan.cur (calRun_chanNH3 ud dev env clock (n + 1))
  exact this

theorem calRun_curCO (ud : Bool) (dev : Sensor) (env : AnalogIn) (clock n : Nat) :
    (calRun ud dev env clock (n + 1)).curCO = readingCO dev env clock n := by
  have := congrArg Chan.cur (calRun_chanCO ud dev env clock (n + 1))
  exact this

theorem calRun_curNO2 (ud : Bool) (dev : Sensor) (env : AnalogIn) (clock n : Nat) :
    (calRun ud dev env clock (n + 1)).curNO2 = readingNO2 dev env clock n := by
  have := congrArg Chan.cur (calRun_chanNO2 ud dev env clock (n + 1))
  exact this


/-! ## Constant inputs -/

theorem stableTest_const_partial (ud : Bool) (c n : Nat) (hn : n < 10) (hc : c ≤ 1023)
    (hlow : 11 ≤ c ∨ (ud = true ∧ 1 ≤ c)) : stableTest ud (n * c) c = false := by
  have h9 : n * c ≤ 9 * c := Nat.mul_le_mul_right c (by omega)
  cases ud with
  | false =>
    simp only [stableTest, seconds, delta, u16, Bool.false_eq_true, if_false,
      decide_eq_false_iff_not]
    simp at hlow
    omega
  | true =>
    simp only [stableTest, seconds, delta, u16, if_true, decide_eq_false_iff_not]
    omega

theorem stableTest_const_full (ud : Bool) (c : Nat) :
    stableTest ud (10 * c) c = true := by
  cases ud with
  | false =>
    simp only [stableTest, seconds, delta, u16, Bool.false_eq_true, if_false,
      decide_eq_true_eq]
    omega
  | true =>
    simp only [stableTest, seconds, delta, u16, if_true, decide_eq_true_eq]
    omega

/-- With every raw sample of the three pins equal to `c`, the running sums after `n`
ticks are `min n 10 * c` and the readings are `c`. -/
theorem calRun_const (ud : Bool) (dev : Sensor) (env : AnalogIn) (clock c : Nat)
    (hc : c ≤ 1023)
    (henv : ∀ i, env dev._pinNH3 i = c ∧ env dev._pinCO i = c ∧ env dev._pinNO2 i = c)
    (n : Nat) :
    (calRun ud dev env clock n).fltSumNH3 = min n 10 * c ∧
    (calRun ud dev env clock n).fltSumCO = min n 10 * c ∧
    (calRun ud dev env clock n).fltSumNO2 = min n 10 * c ∧
    (calRun ud dev env clock (n + 1)).curNH3 = c ∧
    (calRun ud dev env clock (n + 1)).curCO = c ∧
    (calRun ud dev env clock (n + 1)).curNO2 = c := by
  have e1 : readingNH3 dev env clock = fun _ => c :=
    funext fun t => readCur_const env _ _ c hc (fun i => (henv i).1)
  have e2 : readingCO dev env clock = fun _ => c :=
    funext fun t => readCur_const env _ _ c hc (fun i => (henv i).2.1)
  have e3 : readingNO2 dev env clock = fun _ => c :=
    funext fun t => readCur_const env _ _ c hc (fun i => (henv i).2.2)
  have i1 := (calRun_invNH3 ud dev env clock (by rw [e1]; exact fun _ => hc) n).sum
  have i2 := (calRun_invCO ud dev env clock (by rw [e2]; exact fun _ => hc) n).sum
  have i3 := (calRun_invNO2 ud dev env clock (by rw [e3]; exact fun _ => hc) n).sum
  rw [e1, windowSum_const] at i1
  rw [e2, windowSum_const] at i2
  rw [e3, windowSum_const] at i3
  refine ⟨i1, i2, i3, ?_, ?_, ?_⟩
  · rw [calRun_curNH3, e1]
  · rw [calRun_curCO, e2]
  · rw [calRun_curNO2, e3]

/-- With every raw sample of the three pins equal to `c`, where `11 ≤ c ≤ 1023` (or
`1 ≤ c ≤ 1023` under the unsigned reading of the test), the loop exits after exactly 10
ticks and the three baselines are `c`. -/
theorem calibrate_const (ud : Bool) (dev : Sensor) (env : AnalogIn) (clock c fuel : Nat)
    (hc : c ≤ 1023) (hlow : 11 ≤ c ∨ (ud = true ∧ 1 ≤ c))
    (henv : ∀ i, env dev._pinNH3 i = c ∧ env dev._pinCO i = c ∧ env dev._pinNO2 i = c)
    (hfuel : 10 ≤ fuel) :
    calibrate ud dev env clock fuel =
      some (10, { dev with _baseNH3 := c, _baseCO := c, _baseNO2 := c }) := by
  rw [calibrate_eq_some_iff]
  have hrun := calRun_const ud dev env clock c hc henv
  have h10 := hrun 10
  have h9 := hrun 9
  refine ⟨by omega, hfuel, ?_, ?_, ?_⟩
  · simp only [allStable, h10.1, h10.2.1, h10.2.2.1, h9.2.2.2.1, h9.2.2.2.2.1,
      h9.2.2.2.2.2, Nat.min_self, stableTest_const_full ud c, Bool.and_self]
  · intro k hk1 hk2
    obtain ⟨j, rfl⟩ : ∃ j, k = j + 1 := ⟨k - 1, by omega⟩
    have hk := hrun (j + 1)
    have hj := hrun j
    have hmin : min (j + 1) 10 = j + 1 := by omega
    simp only [allStable, hk.1, hj.2.2.2.1, hmin,
      stableTest_const_partial ud c (j + 1) hk2 hc hlow, Bool.false_and]
  · simp only [h10.1, h10.2.1, h10.2.2.1, Nat.min_self, seconds, u16]
    have e : 10 * c / 10 % 65536 = c := by omega
    rw [e]


/-! ## `getResistance`, `getBaseResistance`, `getCurrentRatio`, `measure` -/

theorem sampleLoop_eq (env : AnalogIn) (pin : Int) (henv : ∀ i, env pin i ≤ 1023)
    (n rs counter clock : Nat) (h : rs + n * 1023 < 4294967296) :
    sampleLoop env pin n (rs, counter, clock) =
      (rs + ∑ i in Finset.range n, env pin (clock + i), counter + n, clock + n) := by
  induction n generalizing rs counter clock with
  | zero => simp [sampleLoop]
  | succ n ih =>
    have h0 := henv clock
    have e : u32 (rs + env pin clock) = rs + env pin clock := by
      simp only [u32]; omega
    rw [sampleLoop, e, ih _ _ _ (by omega), Finset.sum_range_succ']
    have e2 : ∀ i, env pin (clock + 1 + i) = env pin (clock + (i + 1)) :=
      fun i => congrArg (env pin) (by omega)
    simp only [e2, Nat.add_zero]
    refine Prod.ext (by simp only; omega) (Prod.ext (by simp only; omega) (by simp only; omega))

theorem sampleLoop_const (env : AnalogIn) (pin : Int) (c : Nat) (hc : c ≤ 1023)
    (henv : ∀ i, env pin i = c) (n rs counter clock : Nat)
    (h : rs + n * 1023 < 4294967296) :
    sampleLoop env pin n (rs, counter, clock) = (rs + n * c, counter + n, clock + n) := by
  rw [sampleLoop_eq env pin (fun i => by rw [henv]; exact hc) n rs counter clock h]
  simp [henv]

/-- With every raw sample of the three pins equal to `c`, the value of `getResistance`
is `c` for every channel. -/
theorem getResistance_const (dev : Sensor) (env : AnalogIn) (clock c : Nat) (hc : c ≤ 1023)
    (henv : ∀ i, env dev._pinCO i = c ∧ env dev._pinNO2 i = c ∧ env dev._pinNH3 i = c)
    (channel : channel_t) : getResistance dev env clock channel = c := by
  have h1 := sampleLoop_const env dev._pinCO c hc (fun i => (henv i).1)
  have h2 := sampleLoop_const env dev._pinNO2 c hc (fun i => (henv i).2.1)
  have h3 := sampleLoop_const env dev._pinNH3 c hc (fun i => (henv i).2.2)
  cases channel with
  | CH_CO =>
    simp only [getResistance, getResistanceAcc]
    rw [h1 100 0 0 clock (by omega), h2 100 _ _ _ (by omega), h3 100 _ _ _ (by omega)]
    simp only [u16]
    split <;> omega
  | CH_NO2 =>
    simp only [getResistance, getResistanceAcc]
    rw [h2 100 0 0 clock (by omega), h3 100 _ _ _ (by omega)]
    simp only [u16]
    split <;> omega
  | CH_NH3 =>
    simp only [getResistance, getResistanceAcc]
    rw [h3 100 0 0 clock (by omega)]
    simp only [u16]
    split <;> omega

set_option maxRecDepth 100000 in
/-- C4 (the code at the failing input). Pins 1 (CO), 2 (NO2), 3 (NH3) with constant
samples 0, 300 and 600. For `CH_CO` the code takes 300 samples, 100 from each pin, and
returns 300, not the average 0 of the CO pin; for `CH_NO2` it takes 200 samples, from
the NO2 and NH3 pins, and returns 450, not 300. Only for `CH_NH3` does it take 100
samples of the channel's own pin and return their average 600. -/
theorem getResistance_falls_through :
    (getResistanceSamples ⟨1, 2, 3, 0, 0, 0⟩
        (fun pin _ => if pin = 1 then 0 else if pin = 2 then 300 else 600) 0 .CH_CO = 300 ∧
      getResistance ⟨1, 2, 3, 0, 0, 0⟩
        (fun pin _ => if pin = 1 then 0 else if pin = 2 then 300 else 600) 0 .CH_CO = 300) ∧
    (getResistanceSamples ⟨1, 2, 3, 0, 0, 0⟩
        (fun pin _ => if pin = 1 then 0 else if pin = 2 then 300 else 600) 0 .CH_NO2 = 200 ∧
      getResistance ⟨1, 2, 3, 0, 0, 0⟩
        (fun pin _ => if pin = 1 then 0 else if pin = 2 then 300 else 600) 0 .CH_NO2 = 450) ∧
    (getResistanceSamples ⟨1, 2, 3, 0, 0, 0⟩
        (fun pin _ => if pin = 1 then 0 else if pin = 2 then 300 else 600) 0 .CH_NH3 = 100 ∧
      getResistance ⟨1, 2, 3, 0, 0, 0⟩
        (fun pin _ => if pin = 1 then 0 else if pin = 2 then 300 else 600) 0 .CH_NH3 = 600) := by
  decide

/-- C5. After `loadCalibrationData (a, b, c)`, whatever the object held before,
`getBaseResistance` gives `a` for `CH_NH3`, `b` for `CH_CO` and `c` for `CH_NO2`,
unchanged; this holds for all values, the 16-bit ones among them. -/
theorem loadCalibrationData_getBaseResistance (dev : Sensor) (a b c : Nat) :
    getBaseResistance (loadCalibrationData dev a b c) .CH_NH3 = a ∧
    getBaseResistance (loadCalibrationData dev a b c) .CH_CO = b ∧
    getBaseResistance (loadCalibrationData dev a b c) .CH_NO2 = c :=
  ⟨rfl, rfl, rfl⟩

/-- C6. For every channel and every baseline `b` with `0 < b < 1023`, when the value
of `getResistance` for the channel is `b`, `getCurrentRatio` is exactly 1 (finite values
being exact rationals). -/
theorem getCurrentRatio_eq_one (dev : Sensor) (env : AnalogIn) (clock : Nat)
    (channel : channel_t) (b : Nat) (hb0 : 0 < b) (hb1 : b < 1023)
    (hbase : getBaseResistance dev channel = b)
    (hres : getResistance dev env clock channel = b) :
    getCurrentRatio dev env clock channel = .fin 1 := by
  have h0 : (b : ℚ) ≠ 0 := by
    have : (0 : ℚ) < b := by exact_mod_cast hb0
    exact ne_of_gt this
  have h1 : (1023 : ℚ) - b ≠ 0 := by
    have : (b : ℚ) < 1023 := by exact_mod_cast hb1
    linarith
  simp only [getCurrentRatio, hbase, hres, FloatVal.div, FloatVal.mul, FloatVal.sub, h0, h1,
    if_false, FloatVal.fin.injEq]
  field_simp

/-- Witness of C6: pins 1, 2, 3, baselines 512, every sample 512, channel `CH_CO`. -/
theorem getCurrentRatio_eq_one_witness :
    getBaseResistance ⟨1, 2, 3, 512, 512, 512⟩ .CH_CO = 512 ∧
    getResistance ⟨1, 2, 3, 512, 512, 512⟩ (fun _ _ => 512) 0 .CH_CO = 512 ∧
    getCurrentRatio ⟨1, 2, 3, 512, 512, 512⟩ (fun _ _ => 512) 0 .CH_CO = .fin 1 :=
  ⟨rfl, getResistance_const _ _ 0 512 (by decide) (fun _ => ⟨rfl, rfl, rfl⟩) .CH_CO,
    getCurrentRatio_eq_one ⟨1, 2, 3, 512, 512, 512⟩ (fun _ _ => 512) 0 .CH_CO 512
      (by decide) (by decide) rfl
      (getResistance_const _ _ 0 512 (by decide) (fun _ => ⟨rfl, rfl, rfl⟩) .CH_CO)⟩

/-- C8. With the three baselines equal to 512 and every raw sample of the three pins
equal to 512, `getCurrentRatio (CH_CO)` is 1 and `measure (CO)` is
`pow (1, -1.179) * 4.385 = 4.385`, for every `pow` with `pow (1, -1.179) = 1`. -/
theorem measure_CO_at_baseline_512 (pow : FloatVal → ℚ → FloatVal) (dev : Sensor)
    (env : AnalogIn) (clock : Nat)
    (hbase : dev._baseNH3 = 512 ∧ dev._baseCO = 512 ∧ dev._baseNO2 = 512)
    (henv : ∀ i, env dev._pinCO i = 512 ∧ env dev._pinNO2 i = 512 ∧ env dev._pinNH3 i = 512)
    (hpow : pow (.fin 1) (-1179 / 1000) = .fin 1) :
    getCurrentRatio dev env clock .CH_CO = .fin 1 ∧
    measure pow dev env clock .CO = (pow (.fin 1) (-1179 / 1000)).mul (.fin (4385 / 1000)) ∧
    measure pow dev env clock .CO = .fin (4385 / 1000) := by
  have hr : getCurrentRatio dev env clock .CH_CO = .fin 1 :=
    getCurrentRatio_eq_one dev env clock .CH_CO 512 (by omega) (by omega) hbase.2.1
      (getResistance_const dev env clock 512 (by omega) henv .CH_CO)
  have hm : measure pow dev env clock .CO = .fin (4385 / 1000) := by
    simp only [measure, hr, hpow, FloatVal.mul, one_mul, nanToMinusOne]
  refine ⟨hr, ?_, hm⟩
  rw [hm, hpow]
  simp only [FloatVal.mul, one_mul]

/-- Witness of C8: pins 1, 2, 3, baselines 512, every sample 512, and a `pow` that is 1
at base 1. -/
theorem measure_CO_at_baseline_512_witness :
    measure (fun x _ => if x = .fin 1 then .fin 1 else .nan) ⟨1, 2, 3, 512, 512, 512⟩
      (fun _ _ => 512) 0 .CO = .fin (4385 / 1000) :=
  (measure_CO_at_baseline_512 (fun x _ => if x = .fin 1 then .fin 1 else .nan)
    ⟨1, 2, 3, 512, 512, 512⟩ (fun _ _ => 512) 0 ⟨rfl, rfl, rfl⟩ (fun _ => ⟨rfl, rfl, rfl⟩)
    (by decide)).2.2


/-! ## Calibration: the claims -/

/-- C1 (the code at the failing input). With every raw sample equal to 0 the loop of
`calibrate` exits after its first tick, not after 10, whatever the reading of the
stability test; the baselines are 0. Under the signed reading of the test a constant
sample of 10 ends the loop after 9 ticks and stores the baseline 9, not 10. -/
theorem calibrate_constant_low_exits_early (ud : Bool) (dev : Sensor) (clock fuel : Nat) :
    calibrate ud dev (fun _ _ => 0) clock (fuel + 1) =
        some (1, { dev with _baseNH3 := 0, _baseCO := 0, _baseNO2 := 0 }) ∧
      calibrate false dev (fun _ _ => 10) clock (fuel + 9) =
        some (9, { dev with _baseNH3 := 9, _baseCO := 9, _baseNO2 := 9 }) := by
  constructor
  · rw [calibrate_eq_some_iff]
    have h1 := calRun_const ud dev (fun _ _ => 0) clock 0 (by omega) (fun _ => ⟨rfl, rfl, rfl⟩) 1
    have h0 := calRun_const ud dev (fun _ _ => 0) clock 0 (by omega) (fun _ => ⟨rfl, rfl, rfl⟩) 0
    refine ⟨le_refl 1, by omega, ?_, fun k hk1 hk2 => by omega, ?_⟩
    · simp only [allStable, h1.1, h1.2.1, h1.2.2.1, h0.2.2.2.1, h0.2.2.2.2.1, h0.2.2.2.2.2]
      cases ud <;> decide
    · simp only [h1.1, h1.2.1, h1.2.2.1]
      rfl
  · rw [calibrate_eq_some_iff]
    have hrun := calRun_const false dev (fun _ _ => 10) clock 10 (by omega)
      (fun _ => ⟨rfl, rfl, rfl⟩)
    have h9 := hrun 9
    have h8 := hrun 8
    refine ⟨by omega, by omega, ?_, ?_, ?_⟩
    · simp only [allStable, h9.1, h9.2.1, h9.2.2.1, h8.2.2.2.1, h8.2.2.2.2.1, h8.2.2.2.2.2]
      decide
    · intro k hk1 hk2
      obtain ⟨j, rfl⟩ : ∃ j, k = j + 1 := ⟨k - 1, by omega⟩
      have hk := hrun (j + 1)
      have hj := hrun j
      have hj8 : j < 8 := by omega
      have hst : stableTest false (min (j + 1) 10 * 10) 10 = false := by
        interval_cases j <;> decide
      simp only [allStable, hk.1, hj.2.2.2.1, hst, Bool.false_and]
    · simp only [h9.1, h9.2.1, h9.2.2.1]
      rfl

/-- C2. For raw samples in [0,1023], after every tick of the loop of `calibrate` (and
on entry to it) each channel's running sum `fltSumX` is the exact sum of the entries of
its buffer `bufferX`, which has 10 entries. -/
theorem calibrate_running_sum_eq_buffer_sum (ud : Bool) (dev : Sensor) (env : AnalogIn)
    (clock : Nat) (henv : ∀ p i, env p i ≤ 1023) (n : Nat) :
    ((calRun ud dev env clock n).fltSumNH3 = (calRun ud dev env clock n).bufferNH3.sum ∧
      (calRun ud dev env clock n).bufferNH3.length = 10) ∧
    ((calRun ud dev env clock n).fltSumCO = (calRun ud dev env clock n).bufferCO.sum ∧
      (calRun ud dev env clock n).bufferCO.length = 10) ∧
    ((calRun ud dev env clock n).fltSumNO2 = (calRun ud dev env clock n).bufferNO2.sum ∧
      (calRun ud dev env clock n).bufferNO2.length = 10) := by
  have i1 := calRun_invNH3 ud dev env clock (readingNH3_le dev env henv clock) n
  have i2 := calRun_invCO ud dev env clock (readingCO_le dev env henv clock) n
  have i3 := calRun_invNO2 ud dev env clock (readingNO2_le dev env henv clock) n
  exact ⟨⟨i1.bsum, i1.len⟩, ⟨i2.bsum, i2.len⟩, ⟨i3.bsum, i3.len⟩⟩

/-- Witness of C2: the invariant after 3 ticks of a calibration on constant samples 512. -/
theorem calibrate_running_sum_eq_buffer_sum_witness :
    (∀ p i, (fun (_ : Int) (_ : Nat) => 512) p i ≤ 1023) ∧
    (calRun false ⟨1, 2, 3, 0, 0, 0⟩ (fun _ _ => 512) 0 3).fltSumNH3 =
      (calRun false ⟨1, 2, 3, 0, 0, 0⟩ (fun _ _ => 512) 0 3).bufferNH3.sum :=
  ⟨fun _ _ => by norm_num,
    (calibrate_running_sum_eq_buffer_sum false ⟨1, 2, 3, 0, 0, 0⟩ (fun _ _ => 512) 0
      (fun _ _ => by norm_num) 3).1.1⟩


theorem readCur_eq_average (env : AnalogIn) (pin : Int) (clock : Nat)
    (henv : ∀ p i, env p i ≤ 1023) :
    readCur env pin clock =
      (env pin clock + env pin (clock + 1) + env pin (clock + 2)) / 3 := by
  have h0 := henv pin clock
  have h1 := henv pin (clock + 1)
  have h2 := henv pin (clock + 2)
  simp only [readCur, u32, u16]
  have e1 : (0 + env pin clock) % 4294967296 = env pin clock := by omega
  have e2 : (env pin clock + env pin (clock + 1)) % 4294967296 =
      env pin clock + env pin (clock + 1) := by omega
  have e3 : (env pin clock + env pin (clock + 1) + env pin (clock + 2)) % 4294967296 =
      env pin clock + env pin (clock + 1) + env pin (clock + 2) := by omega
  rw [e1, e2, e3]
  omega

theorem allStable_eq_true_iff (ud : Bool) (s : CalState) :
    allStable ud s = true ↔
      stableTest ud s.fltSumNH3 s.curNH3 = true ∧ stableTest ud s.fltSumCO s.curCO = true ∧
        stableTest ud s.fltSumNO2 s.curNO2 = true := by
  simp [allStable, and_assoc]

theorem allStable_eq_false_iff (ud : Bool) (s : CalState) :
    allStable ud s = false ↔
      stableTest ud s.fltSumNH3 s.curNH3 = false ∨ stableTest ud s.fltSumCO s.curCO = false ∨
        stableTest ud s.fltSumNO2 s.curNO2 = false := by
  simp only [allStable]
  cases stableTest ud s.fltSumNH3 s.curNH3 <;> cases stableTest ud s.fltSumCO s.curCO <;>
    cases stableTest ud s.fltSumNO2 s.curNO2 <;> simp

/-- C3. For raw samples in [0,1023], when `calibrate` returns, after `t` ticks, each
stored baseline is the integer quotient by 10 of the sum of that channel's readings over
the last `min t 10` ticks, each reading being the integer average of its 3 raw samples.
The baseline is not in general the latest reading: on some input it differs from it. -/
theorem calibrate_baseline_is_window_average (ud : Bool) (dev : Sensor) (env : AnalogIn)
    (clock fuel t : Nat) (dev1 : Sensor) (henv : ∀ p i, env p i ≤ 1023)
    (h : calibrate ud dev env clock fuel = some (t, dev1)) :
    (dev1._baseNH3 = windowSum (readingNH3 dev env clock) t / 10 ∧
      dev1._baseCO = windowSum (readingCO dev env clock) t / 10 ∧
      dev1._baseNO2 = windowSum (readingNO2 dev env clock) t / 10) ∧
    (∀ k, readingNH3 dev env clock k =
        (env dev._pinNH3 (clock + 9 * k) + env dev._pinNH3 (clock + 9 * k + 1) +
          env dev._pinNH3 (clock + 9 * k + 2)) / 3 ∧
      readingCO dev env clock k =
        (env dev._pinCO (clock + 9 * k + 3) + env dev._pinCO (clock + 9 * k + 3 + 1) +
          env dev._pinCO (clock + 9 * k + 3 + 2)) / 3 ∧
      readingNO2 dev env clock k =
        (env dev._pinNO2 (clock + 9 * k + 6) + env dev._pinNO2 (clock + 9 * k + 6 + 1) +
          env dev._pinNO2 (clock + 9 * k + 6 + 2)) / 3) ∧
    (∃ (dev2 : Sensor) (env2 : AnalogIn) (t2 : Nat) (dev3 : Sensor),
      (∀ p i, env2 p i ≤ 1023) ∧ calibrate ud dev2 env2 0 10 = some (t2, dev3) ∧
        dev3._baseNH3 ≠ readingNH3 dev2 env2 0 (t2 - 1) ∧
        dev3._baseCO ≠ readingCO dev2 env2 0 (t2 - 1) ∧
        dev3._baseNO2 ≠ readingNO2 dev2 env2 0 (t2 - 1)) := by
  rw [calibrate_eq_some_iff] at h
  obtain ⟨_, _, _, _, hd⟩ := h
  have i1 := calRun_invNH3 ud dev env clock (readingNH3_le dev env henv clock) t
  have i2 := calRun_invCO ud dev env clock (readingCO_le dev env henv clock) t
  have i3 := calRun_invNO2 ud dev env clock (readingNO2_le dev env henv clock) t
  have w1 := windowSum_le _ (readingNH3_le dev env henv clock) t
  have w2 := windowSum_le _ (readingCO_le dev env henv clock) t
  have w3 := windowSum_le _ (readingNO2_le dev env henv clock) t
  have s1 : (calRun ud dev env clock t).fltSumNH3 = _ := i1.sum
  have s2 : (calRun ud dev env clock t).fltSumCO = _ := i2.sum
  have s3 : (calRun ud dev env clock t).fltSumNO2 = _ := i3.sum
  refine ⟨?_, ?_, ?_⟩
  · rw [hd, s1, s2, s3]
    simp only [u16, seconds]
    refine ⟨?_, ?_, ?_⟩ <;> omega
  · intro k
    exact ⟨readCur_eq_average env _ _ henv, readCur_eq_average env _ _ henv,
      readCur_eq_average env _ _ henv⟩
  · refine ⟨⟨1, 2, 3, 0, 0, 0⟩, fun _ i => if i < 81 then 520 else 518, 10,
      ⟨1, 2, 3, 519, 519, 519⟩, ?_, ?_, ?_⟩
    · intro p i
      show (if i < 81 then 520 else 518) ≤ 1023
      split <;> omega
    · cases ud <;> decide
    · decide

/-- Witness of C3: constant samples 512, for which `calibrate` returns after 10 ticks. -/
theorem calibrate_baseline_is_window_average_witness :
    (∀ p i, (fun (_ : Int) (_ : Nat) => 512) p i ≤ 1023) ∧
    calibrate false ⟨1, 2, 3, 0, 0, 0⟩ (fun _ _ => 512) 0 10 =
      some (10, ⟨1, 2, 3, 512, 512, 512⟩) ∧
    (512 : Nat) = windowSum (readingNH3 ⟨1, 2, 3, 0, 0, 0⟩ (fun _ _ => 512) 0) 10 / 10 :=
  ⟨fun _ _ => by norm_num, by decide,
    (calibrate_baseline_is_window_average false ⟨1, 2, 3, 0, 0, 0⟩ (fun _ _ => 512) 0 10 10
      ⟨1, 2, 3, 512, 512, 512⟩ (fun _ _ => by norm_num) (by decide)).1.1⟩

/-- C7. When every raw sample on the CO, NO2 and NH3 pins is 512, `calibrate` returns
(after 10 ticks, for every bound of at least 10 ticks) and `getBaseResistance` then
gives 512 for each of the three channels. -/
theorem calibrate_constant_512 (ud : Bool) (dev : Sensor) (env : AnalogIn)
    (clock fuel : Nat)
    (henv : ∀ i, env dev._pinCO i = 512 ∧ env dev._pinNO2 i = 512 ∧ env dev._pinNH3 i = 512)
    (hfuel : 10 ≤ fuel) :
    ∃ dev1, calibrate ud dev env clock fuel = some (10, dev1) ∧
      getBaseResistance dev1 .CH_CO = 512 ∧ getBaseResistance dev1 .CH_NO2 = 512 ∧
      getBaseResistance dev1 .CH_NH3 = 512 :=
  ⟨_, calibrate_const ud dev env clock 512 fuel (by omega) (Or.inl (by omega))
    (fun i => ⟨(henv i).2.2, (henv i).1, (henv i).2.1⟩) hfuel, rfl, rfl, rfl⟩

/-- Witness of C7: pins 1, 2, 3, every sample 512, at most 10 ticks allowed. -/
theorem calibrate_constant_512_witness :
    ∃ dev1, calibrate false ⟨1, 2, 3, 0, 0, 0⟩ (fun _ _ => 512) 0 10 = some (10, dev1) ∧
      getBaseResistance dev1 .CH_CO = 512 ∧ getBaseResistance dev1 .CH_NO2 = 512 ∧
      getBaseResistance dev1 .CH_NH3 = 512 :=
  calibrate_constant_512 false ⟨1, 2, 3, 0, 0, 0⟩ (fun _ _ => 512) 0 10
    (fun _ => ⟨rfl, rfl, rfl⟩) (by decide)

/-- C9. `calibrate` returns after `t` ticks exactly when tick `t` is the first tick at
which the stability test `abs (fltSum / seconds - cur) < delta` passes for all three
channels together: at every earlier tick at least one channel fails it, whatever passed
before. The baselines are the quotients by 10 of the sums of tick `t`. Under the signed
reading of the test it is `|fltSum / 10 - cur| < 2`. -/
theorem calibrate_exits_at_first_all_stable_tick (ud : Bool) (dev : Sensor)
    (env : AnalogIn) (clock t : Nat) :
    ((∃ fuel dev1, calibrate ud dev env clock fuel = some (t, dev1)) ↔
      (1 ≤ t ∧
        (stableTest ud (calRun ud dev env clock t).fltSumNH3
            (calRun ud dev env clock t).curNH3 = true ∧
          stableTest ud (calRun ud dev env clock t).fltSumCO
            (calRun ud dev env clock t).curCO = true ∧
          stableTest ud (calRun ud dev env clock t).fltSumNO2
            (calRun ud dev env clock t).curNO2 = true) ∧
        ∀ k, 1 ≤ k → k < t →
          (stableTest ud (calRun ud dev env clock k).fltSumNH3
              (calRun ud dev env clock k).curNH3 = false ∨
            stableTest ud (calRun ud dev env clock k).fltSumCO
              (calRun ud dev env clock k).curCO = false ∨
            stableTest ud (calRun ud dev env clock k).fltSumNO2
              (calRun ud dev env clock k).curNO2 = false))) ∧
    (∀ fuel dev1, calibrate ud dev env clock fuel = some (t, dev1) →
      dev1._baseNH3 = u16 ((calRun ud dev env clock t).fltSumNH3 / 10) ∧
      dev1._baseCO = u16 ((calRun ud dev env clock t).fltSumCO / 10) ∧
      dev1._baseNO2 = u16 ((calRun ud dev env clock t).fltSumNO2 / 10)) ∧
    (∀ fltSum cur : Nat,
      stableTest false fltSum cur = true ↔ |((fltSum / 10 : Nat) : Int) - (cur : Int)| < 2) := by
  refine ⟨?_, ?_, ?_⟩
  · constructor
    · rintro ⟨fuel, dev1, h⟩
      rw [calibrate_eq_some_iff] at h
      obtain ⟨h1, _, hst, hall, _⟩ := h
      refine ⟨h1, (allStable_eq_true_iff ud _).1 hst, fun k hk1 hk2 => ?_⟩
      exact (allStable_eq_false_iff ud _).1 (hall k hk1 hk2)
    · rintro ⟨h1, hst, hall⟩
      refine ⟨t, _, (calibrate_eq_some_iff ud dev env clock t t _).2
        ⟨h1, le_refl t, (allStable_eq_true_iff ud _).2 hst, fun k hk1 hk2 => ?_, rfl⟩⟩
      exact (allStable_eq_false_iff ud _).2 (hall k hk1 hk2)
  · intro fuel dev1 h
    rw [calibrate_eq_some_iff] at h
    obtain ⟨_, _, _, _, hd⟩ := h
    rw [hd]
    exact ⟨rfl, rfl, rfl⟩
  · intro fltSum cur
    simp only [stableTest, seconds, delta, Bool.false_eq_true, if_false, decide_eq_true_eq]
    rw [abs_lt]
    omega

/-- C10 (the code at the failing input). With every raw sample of the first tick equal
to 1000 and every later one equal to 111, all in [0,1023], the three stability tests
pass at tick 2 and `calibrate` returns after 2 ticks, not after at least 10, the
baselines being 111. -/
theorem calibrate_exits_before_window_full (ud : Bool) :
    calibrate ud ⟨1, 2, 3, 0, 0, 0⟩ (fun _ i => if i < 9 then 1000 else 111) 0 10 =
        some (2, ⟨1, 2, 3, 111, 111, 111⟩) ∧
      allStable ud (calRun ud ⟨1, 2, 3, 0, 0, 0⟩
        (fun _ i => if i < 9 then 1000 else 111) 0 2) = true := by
  cases ud <;> decide


/-! ## Cursors, ranges and the final readings -/

theorem chanRun_pntr_len (ud : Bool) (rd : Nat → Nat) (n : Nat) :
    (chanRun ud rd n).pntr = n % 10 ∧ (chanRun ud rd n).buffer.length = 10 := by
  induction n with
  | zero => exact ⟨rfl, by simp [chanRun, chanInit, seconds]⟩
  | succ n ih =>
    refine ⟨?_, ?_⟩
    · simp only [chanRun, chanTick, seconds, ih.1]; omega
    · simp only [chanRun, chanTick, List.length_set]; exact ih.2

theorem getD_le_sum (l : List Nat) (p : Nat) : l.getD p 0 ≤ l.sum := by
  induction l generalizing p with
  | nil => simp
  | cons a l ih =>
    cases p with
    | zero => simp
    | succ p =>
      have := ih p
      simp only [List.getD_cons_succ, List.sum_cons]
      omega

/-- One tick of one channel with readings in [0,1023]: the operands and the result of
the update of the sum stay in range, and the 16-bit update is the exact one. -/
theorem chanRun_range (ud : Bool) (rd : Nat → Nat) (hrd : ∀ t, rd t ≤ 1023) (n : Nat) :
    (chanRun ud rd n).fltSum ≤ 10230 ∧
    (chanRun ud rd n).buffer.getD (chanRun ud rd n).pntr 0 ≤ (chanRun ud rd n).fltSum ∧
    (chanRun ud rd n).fltSum + rd n ≤ 11253 ∧
    (chanRun ud rd (n + 1)).fltSum =
      (chanRun ud rd n).fltSum + rd n -
        (chanRun ud rd n).buffer.getD (chanRun ud rd n).pntr 0 := by
  have i0 := chanInv_run ud rd hrd n
  have i1 := chanInv_run ud rd hrd (n + 1)
  have w0 := windowSum_le rd hrd n
  have w1 := windowSum_le rd hrd (n + 1)
  have hW := windowSum_succ rd n
  have hold : (chanRun ud rd n).buffer.getD (chanRun ud rd n).pntr 0 =
      if 10 ≤ n then rd (n - 10) else 0 := by
    rw [i0.pntr]; exact i0.entry n (le_refl n) (by omega)
  have hle : (chanRun ud rd n).buffer.getD (chanRun ud rd n).pntr 0 ≤
      (chanRun ud rd n).fltSum := by
    rw [i0.bsum]; exact getD_le_sum _ _
  have hr := hrd n
  rw [← hold] at hW
  refine ⟨by rw [i0.sum]; exact w0, hle, by rw [i0.sum]; omega, ?_⟩
  rw [i1.sum]
  rw [i0.sum] at hle ⊢
  omega

theorem calRun_fltSumNH3 (ud : Bool) (dev : Sensor) (env : AnalogIn) (clock n : Nat) :
    (calRun ud dev env clock n).fltSumNH3 = (chanRun ud (readingNH3 dev env clock) n).fltSum :=
  congrArg Chan.fltSum (calRun_chanNH3 ud dev env clock n)

theorem calRun_fltSumCO (ud : Bool) (dev : Sensor) (env : AnalogIn) (clock n : Nat) :
    (calRun ud dev env clock n).fltSumCO = (chanRun ud (readingCO dev env clock) n).fltSum :=
  congrArg Chan.fltSum (calRun_chanCO ud dev env clock n)

theorem calRun_fltSumNO2 (ud : Bool) (dev : Sensor) (env : AnalogIn) (clock n : Nat) :
    (calRun ud dev env clock n).fltSumNO2 = (chanRun ud (readingNO2 dev env clock) n).fltSum :=
  congrArg Chan.fltSum (calRun_chanNO2 ud dev env clock n)

/-- A passed stability test bounds the distance of the quotient and the reading, for a
16-bit sum; under the unsigned reading of the test the reading has to be below 65535
(there the test also passes for the quotient 0 and the reading 65535). -/
theorem stableTest_close (ud : Bool) (fltSum cur : Nat) (hf : fltSum < 65536)
    (hc : ud = true → cur < 65535) (h : stableTest ud fltSum cur = true) :
    fltSum / 10 < cur + 2 ∧ cur < fltSum / 10 + 2 := by
  cases ud with
  | false =>
    simp only [stableTest, seconds, delta, Bool.false_eq_true, if_false,
      decide_eq_true_eq] at h
    omega
  | true =>
    have hc1 := hc rfl
    simp only [stableTest, seconds, delta, u16, if_true, decide_eq_true_eq,
      Nat.mod_eq_of_lt (Nat.lt_succ_of_lt hc1)] at h
    omega

/-- Raw samples that are 16-bit signed integers give readings of at most 32767. -/
theorem readCur_le_int16 (env : AnalogIn) (pin : Int) (clock : Nat)
    (henv : ∀ i, env pin i ≤ 32767) : readCur env pin clock ≤ 32767 := by
  have h0 := henv clock
  have h1 := henv (clock + 1)
  have h2 := henv (clock + 2)
  simp only [readCur, u32, u16]
  have e1 : (0 + env pin clock) % 4294967296 = env pin clock := by omega
  have e2 : (env pin clock + env pin (clock + 1)) % 4294967296 =
      env pin clock + env pin (clock + 1) := by omega
  have e3 : (env pin clock + env pin (clock + 1) + env pin (clock + 2)) % 4294967296 =
      env pin clock + env pin (clock + 1) + env pin (clock + 2) := by omega
  rw [e1, e2, e3]
  omega

theorem readCur_lt (env : AnalogIn) (pin : Int) (clock : Nat) :
    readCur env pin clock < 65536 := by
  simp only [readCur, u16]; omega

theorem chanRun_fltSum_lt (ud : Bool) (rd : Nat → Nat) (n : Nat) :
    (chanRun ud rd n).fltSum < 65536 := by
  cases n with
  | zero => simp [chanRun, chanInit]
  | succ n => simp only [chanRun, chanTick, updSum, u16]; omega


/-- C13. For raw samples in [0,1023], at every tick and for each channel: the reading
is in [0,1023]; the running sum before the update is at most 10230; the entry that is
subtracted is at most the running sum, and the running sum plus the reading is at most
10230 + 1023 = 11253 < 65536, so the 16-bit update of lines 102-104 is the exact
integer `fltSum + cur - buffer [pntr]`; and every baseline written on return is in
[0,1023]. -/
theorem calibrate_no_overflow (ud : Bool) (dev : Sensor) (env : AnalogIn) (clock : Nat)
    (henv : ∀ p i, env p i ≤ 1023) (n : Nat) :
    (readingNH3 dev env clock n ≤ 1023 ∧
      (calRun ud dev env clock (n + 1)).curNH3 = readingNH3 dev env clock n ∧
      (calRun ud dev env clock n).fltSumNH3 ≤ 10230 ∧
      (calRun ud dev env clock n).bufferNH3.getD (calRun ud dev env clock n).pntrNH3 0 ≤
        (calRun ud dev env clock n).fltSumNH3 ∧
      (calRun ud dev env clock n).fltSumNH3 + readingNH3 dev env clock n ≤ 11253 ∧
      (calRun ud dev env clock (n + 1)).fltSumNH3 =
        (calRun ud dev env clock n).fltSumNH3 + readingNH3 dev env clock n -
          (calRun ud dev env clock n).bufferNH3.getD (calRun ud dev env clock n).pntrNH3 0) ∧
    (readingCO dev env clock n ≤ 1023 ∧
      (calRun ud dev env clock (n + 1)).curCO = readingCO dev env clock n ∧
      (calRun ud dev env clock n).fltSumCO ≤ 10230 ∧
      (calRun ud dev env clock n).bufferCO.getD (calRun ud dev env clock n).pntrCO 0 ≤
        (calRun ud dev env clock n).fltSumCO ∧
      (calRun ud dev env clock n).fltSumCO + readingCO dev env clock n ≤ 11253 ∧
      (calRun ud dev env clock (n + 1)).fltSumCO =
        (calRun ud dev env clock n).fltSumCO + readingCO dev env clock n -
          (calRun ud dev env clock n).bufferCO.getD (calRun ud dev env clock n).pntrCO 0) ∧
    (readingNO2 dev env clock n ≤ 1023 ∧
      (calRun ud dev env clock (n + 1)).curNO2 = readingNO2 dev env clock n ∧
      (calRun ud dev env clock n).fltSumNO2 ≤ 10230 ∧
      (calRun ud dev env clock n).bufferNO2.getD (calRun ud dev env clock n).pntrNO2 0 ≤
        (calRun ud dev env clock n).fltSumNO2 ∧
      (calRun ud dev env clock n).fltSumNO2 + readingNO2 dev env clock n ≤ 11253 ∧
      (calRun ud dev env clock (n + 1)).fltSumNO2 =
        (calRun ud dev env clock n).fltSumNO2 + readingNO2 dev env clock n -
          (calRun ud dev env clock n).bufferNO2.getD (calRun ud dev env clock n).pntrNO2 0) ∧
    (∀ fuel t dev1, calibrate ud dev env clock fuel = some (t, dev1) →
      dev1._baseNH3 ≤ 1023 ∧ dev1._baseCO ≤ 1023 ∧ dev1._baseNO2 ≤ 1023) := by
  have r1 := readingNH3_le dev env henv clock
  have r2 := readingCO_le dev env henv clock
  have r3 := readingNO2_le dev env henv clock
  have c1 := chanRun_range ud _ r1 n
  have c2 := chanRun_range ud _ r2 n
  have c3 := chanRun_range ud _ r3 n
  rw [← calRun_chanNH3, ← calRun_chanNH3] at c1
  rw [← calRun_chanCO, ← calRun_chanCO] at c2
  rw [← calRun_chanNO2, ← calRun_chanNO2] at c3
  refine ⟨⟨r1 n, calRun_curNH3 ud dev env clock n, c1⟩,
    ⟨r2 n, calRun_curCO ud dev env clock n, c2⟩,
    ⟨r3 n, calRun_curNO2 ud dev env clock n, c3⟩, ?_⟩
  intro fuel t dev1 h
  rw [calibrate_eq_some_iff] at h
  obtain ⟨_, _, _, _, hd⟩ := h
  have b1 := (chanRun_range ud _ r1 t).1
  have b2 := (chanRun_range ud _ r2 t).1
  have b3 := (chanRun_range ud _ r3 t).1
  rw [← calRun_fltSumNH3] at b1
  rw [← calRun_fltSumCO] at b2
  rw [← calRun_fltSumNO2] at b3
  rw [hd]
  simp only [u16, seconds]
  refine ⟨?_, ?_, ?_⟩ <;> omega

/-- Witness of C13: constant samples 512, tick 3, and the return after 10 ticks. -/
theorem calibrate_no_overflow_witness :
    (∀ p i, (fun (_ : Int) (_ : Nat) => 512) p i ≤ 1023) ∧
    (calRun false ⟨1, 2, 3, 0, 0, 0⟩ (fun _ _ => 512) 0 3).fltSumNH3 +
      readingNH3 ⟨1, 2, 3, 0, 0, 0⟩ (fun _ _ => 512) 0 3 ≤ 11253 :=
  ⟨fun _ _ => by norm_num,
    (calibrate_no_overflow false ⟨1, 2, 3, 0, 0, 0⟩ (fun _ _ => 512) 0
      (fun _ _ => by norm_num) 3).1.2.2.2.2.1⟩

/-- C17. When `calibrate` returns, after `t` ticks, each stored baseline differs from
the channel's reading of the final tick by less than `delta = 2`; so a baseline 0 is
stored only when that reading is 0 or 1. Under the signed reading of the stability test
this holds for every input; under the unsigned reading (a target whose `int` has 16
bits) the raw samples are taken to be values of that `int`, at most 32767. -/
theorem calibrate_baseline_near_final_reading (ud : Bool) (dev : Sensor) (env : AnalogIn)
    (clock fuel t : Nat) (dev1 : Sensor) (henv : ud = true → ∀ p i, env p i ≤ 32767)
    (h : calibrate ud dev env clock fuel = some (t, dev1)) :
    (1 ≤ t ∧ (calRun ud dev env clock t).curNH3 = readingNH3 dev env clock (t - 1) ∧
      (calRun ud dev env clock t).curCO = readingCO dev env clock (t - 1) ∧
      (calRun ud dev env clock t).curNO2 = readingNO2 dev env clock (t - 1)) ∧
    (|(dev1._baseNH3 : Int) - (readingNH3 dev env clock (t - 1) : Int)| < 2 ∧
      |(dev1._baseCO : Int) - (readingCO dev env clock (t - 1) : Int)| < 2 ∧
      |(dev1._baseNO2 : Int) - (readingNO2 dev env clock (t - 1) : Int)| < 2) ∧
    ((dev1._baseNH3 = 0 → readingNH3 dev env clock (t - 1) ≤ 1) ∧
      (dev1._baseCO = 0 → readingCO dev env clock (t - 1) ≤ 1) ∧
      (dev1._baseNO2 = 0 → readingNO2 dev env clock (t - 1) ≤ 1)) := by
  rw [calibrate_eq_some_iff] at h
  obtain ⟨h1, _, hst, _, hd⟩ := h
  obtain ⟨j, rfl⟩ : ∃ j, t = j + 1 := ⟨t - 1, by omega⟩
  obtain ⟨s1, s2, s3⟩ := (allStable_eq_true_iff ud _).1 hst
  have e1 := calRun_curNH3 ud dev env clock j
  have e2 := calRun_curCO ud dev env clock j
  have e3 := calRun_curNO2 ud dev env clock j
  have r1 : ud = true → readingNH3 dev env clock j < 65535 := fun hu =>
    Nat.lt_of_le_of_lt (readCur_le_int16 env _ _ (fun i => henv hu _ i)) (by omega)
  have r2 : ud = true → readingCO dev env clock j < 65535 := fun hu =>
    Nat.lt_of_le_of_lt (readCur_le_int16 env _ _ (fun i => henv hu _ i)) (by omega)
  have r3 : ud = true → readingNO2 dev env clock j < 65535 := fun hu =>
    Nat.lt_of_le_of_lt (readCur_le_int16 env _ _ (fun i => henv hu _ i)) (by omega)
  have f1 := chanRun_fltSum_lt ud (readingNH3 dev env clock) (j + 1)
  have f2 := chanRun_fltSum_lt ud (readingCO dev env clock) (j + 1)
  have f3 := chanRun_fltSum_lt ud (readingNO2 dev env clock) (j + 1)
  rw [← calRun_fltSumNH3] at f1
  rw [← calRun_fltSumCO] at f2
  rw [← calRun_fltSumNO2] at f3
  rw [e1] at s1
  rw [e2] at s2
  rw [e3] at s3
  have k1 := stableTest_close ud _ _ f1 r1 s1
  have k2 := stableTest_close ud _ _ f2 r2 s2
  have k3 := stableTest_close ud _ _ f3 r3 s3
  have d1 : dev1._baseNH3 = (calRun ud dev env clock (j + 1)).fltSumNH3 / 10 := by
    rw [hd]; simp only [u16, seconds]; omega
  have d2 : dev1._baseCO = (calRun ud dev env clock (j + 1)).fltSumCO / 10 := by
    rw [hd]; simp only [u16, seconds]; omega
  have d3 : dev1._baseNO2 = (calRun ud dev env clock (j + 1)).fltSumNO2 / 10 := by
    rw [hd]; simp only [u16, seconds]; omega
  simp only [Nat.add_sub_cancel]
  refine ⟨⟨h1, e1, e2, e3⟩, ⟨?_, ?_, ?_⟩, ⟨?_, ?_, ?_⟩⟩
  · rw [abs_lt, d1]; omega
  · rw [abs_lt, d2]; omega
  · rw [abs_lt, d3]; omega
  · intro h0; rw [d1] at h0; omega
  · intro h0; rw [d2] at h0; omega
  · intro h0; rw [d3] at h0; omega

/-- Witness of C17: constant samples 512 under the unsigned reading of the test, for
which `calibrate` returns after 10 ticks. -/
theorem calibrate_baseline_near_final_reading_witness :
    (true = true → ∀ p i, (fun (_ : Int) (_ : Nat) => 512) p i ≤ 32767) ∧
    calibrate true ⟨1, 2, 3, 0, 0, 0⟩ (fun _ _ => 512) 0 10 =
      some (10, ⟨1, 2, 3, 512, 512, 512⟩) ∧
    |((512 : Nat) : Int) - (readingNH3 ⟨1, 2, 3, 0, 0, 0⟩ (fun _ _ => 512) 0 (10 - 1) : Int)|
      < 2 :=
  ⟨fun _ _ _ => by norm_num, by decide,
    (calibrate_baseline_near_final_reading true ⟨1, 2, 3, 0, 0, 0⟩ (fun _ _ => 512) 0 10 10
      ⟨1, 2, 3, 512, 512, 512⟩ (fun _ _ _ => by norm_num) (by decide)).2.1.1⟩

/-- C18. After `k` ticks each write cursor equals `k mod 10` and is below the length 10
of its buffer, so the read and the write of `bufferX [pntrX]` in the next tick are in
bounds; this holds for every input. -/
theorem calibrate_cursor_in_bounds (ud : Bool) (dev : Sensor) (env : AnalogIn)
    (clock k : Nat) :
    ((calRun ud dev env clock k).pntrNH3 = k % 10 ∧
      (calRun ud dev env clock k).bufferNH3.length = 10 ∧
      (calRun ud dev env clock k).pntrNH3 < (calRun ud dev env clock k).bufferNH3.length) ∧
    ((calRun ud dev env clock k).pntrCO = k % 10 ∧
      (calRun ud dev env clock k).bufferCO.length = 10 ∧
      (calRun ud dev env clock k).pntrCO < (calRun ud dev env clock k).bufferCO.length) ∧
    ((calRun ud dev env clock k).pntrNO2 = k % 10 ∧
      (calRun ud dev env clock k).bufferNO2.length = 10 ∧
      (calRun ud dev env clock k).pntrNO2 < (calRun ud dev env clock k).bufferNO2.length) := by
  have c1 := chanRun_pntr_len ud (readingNH3 dev env clock) k
  have c2 := chanRun_pntr_len ud (readingCO dev env clock) k
  have c3 := chanRun_pntr_len ud (readingNO2 dev env clock) k
  rw [← calRun_chanNH3] at c1
  rw [← calRun_chanCO] at c2
  rw [← calRun_chanNO2] at c3
  have p1 : (calRun ud dev env clock k).pntrNH3 = k % 10 := c1.1
  have l1 : (calRun ud dev env clock k).bufferNH3.length = 10 := c1.2
  have p2 : (calRun ud dev env clock k).pntrCO = k % 10 := c2.1
  have l2 : (calRun ud dev env clock k).bufferCO.length = 10 := c2.2
  have p3 : (calRun ud dev env clock k).pntrNO2 = k % 10 := c3.1
  have l3 : (calRun ud dev env clock k).bufferNO2.length = 10 := c3.2
  refine ⟨⟨p1, l1, ?_⟩, ⟨p2, l2, ?_⟩, ⟨p3, l3, ?_⟩⟩ <;> omega


/-! ## An input on which the loop never exits -/

theorem readCur_alternating (pin : Int) (clock t off : Nat) (hoff : off + 2 < 9) :
    readCur (alternating clock) pin (clock + 9 * t + off) =
      if t % 2 = 0 then 1023 else 0 := by
  have e0 : (clock + 9 * t + off - clock) / 9 = t := by omega
  have e1 : (clock + 9 * t + off + 1 - clock) / 9 = t := by omega
  have e2 : (clock + 9 * t + off + 2 - clock) / 9 = t := by omega
  simp only [readCur, alternating, e0, e1, e2]
  split <;> rfl

theorem windowSum_alternating (n : Nat) :
    windowSum (fun t => if t % 2 = 0 then 1023 else 0) n =
      if n ≤ 10 then 1023 * ((n + 1) / 2) else 5115 := by
  induction n with
  | zero => simp [windowSum]
  | succ n ih =>
    have hW := windowSum_succ (fun t => if t % 2 = 0 then 1023 else 0) n
    simp only [] at hW
    rw [ih] at hW
    by_cases h10 : 10 ≤ n
    · have hp : (n - 10) % 2 = n % 2 := by omega
      rw [if_pos h10, hp] at hW
      split_ifs at hW ⊢ <;> omega
    · rw [if_neg h10] at hW
      split_ifs at hW ⊢ <;> omega

theorem stableTest_alternating (ud : Bool) (n : Nat) :
    stableTest ud (if n + 1 ≤ 10 then 1023 * ((n + 1 + 1) / 2) else 5115)
      (if n % 2 = 0 then 1023 else 0) = false := by
  by_cases h : n + 1 ≤ 10
  · have h9 : n ≤ 9 := by omega
    interval_cases n <;> cases ud <;> decide
  · rw [if_neg h]
    split <;> cases ud <;> decide

/-- C14. There is an input with every raw sample in [0,1023], the one whose samples are
1023 in the even ticks and 0 in the odd ticks (so each channel's reading alternates
between 1023 and 0 from tick to tick), on which the exit condition of the loop of
`calibrate` is false at every tick: whatever the bound on the number of ticks, the loop
has not exited and no baseline is written. -/
theorem calibrate_alternating_never_exits (ud : Bool) (dev : Sensor) (clock : Nat) :
    (∀ p i, alternating clock p i ≤ 1023) ∧
    (∀ t, readingNH3 dev (alternating clock) clock t = if t % 2 = 0 then 1023 else 0) ∧
    (∀ n, 1 ≤ n → allStable ud (calRun ud dev (alternating clock) clock n) = false) ∧
    (∀ fuel, calibrate ud dev (alternating clock) clock fuel = none) := by
  have hb : ∀ p i, alternating clock p i ≤ 1023 := by
    intro p i
    simp only [alternating]
    split <;> omega
  have hrd : readingNH3 dev (alternating clock) clock =
      fun t => if t % 2 = 0 then 1023 else 0 :=
    funext fun t => readCur_alternating dev._pinNH3 clock t 0 (by omega)
  have hall : ∀ n, 1 ≤ n → allStable ud (calRun ud dev (alternating clock) clock n) = false := by
    intro n hn
    obtain ⟨j, rfl⟩ : ∃ j, n = j + 1 := ⟨n - 1, by omega⟩
    rw [allStable_eq_false_iff]
    left
    have hs := (calRun_invNH3 ud dev (alternating clock) clock
      (readingNH3_le dev _ hb clock) (j + 1)).sum
    have hs2 : (calRun ud dev (alternating clock) clock (j + 1)).fltSumNH3 = _ := hs
    rw [hs2, calRun_curNH3, hrd, windowSum_alternating]
    exact stableTest_alternating ud j
  refine ⟨hb, fun t => congrFun hrd t, hall, ?_⟩
  intro fuel
  cases hc : calibrate ud dev (alternating clock) clock fuel with
  | none => rfl
  | some r =>
    obtain ⟨t, dev1⟩ := r
    rw [calibrate_eq_some_iff] at hc
    have := hall t hc.1
    rw [hc.2.2.1] at this
    exact absurd this (by simp)


/-! ## The ratio and the concentration -/

theorem powSample_spec : PowSpec powSample where
  nan := fun y hy => by simp [powSample, hy]
  one := fun y => by simp [powSample]
  posInf_neg := fun y hy => by simp [powSample, hy]
  posInf_pos := fun y hy => by
    have h1 : ¬ y < 0 := not_lt.mpr (le_of_lt hy)
    have h2 : y ≠ 0 := ne_of_gt hy
    simp [powSample, h1, h2]
  negInf_neg := fun y _ hy => by simp [powSample, hy]
  negInf_pos := fun y _ hy => by
    have h1 : ¬ y < 0 := not_lt.mpr (le_of_lt hy)
    have h2 : y ≠ 0 := ne_of_gt hy
    simp [powSample, h1, h2]
  pos := fun x y hx => ⟨x ^ ⌊y⌋, zpow_pos hx _, by simp [powSample, hx]⟩

/-- The value of line 242 for a resistance `r` and a base resistance `b`. -/
theorem getCurrentRatio_unfold (dev : Sensor) (env : AnalogIn) (clock : Nat)
    (channel : channel_t) (r b : Nat) (hres : getResistance dev env clock channel = r)
    (hbase : getBaseResistance dev channel = b) :
    getCurrentRatio dev env clock channel =
      (((FloatVal.fin r).div (.fin b)).mul ((FloatVal.fin 1023).sub (.fin b))).div
        ((FloatVal.fin 1023).sub (.fin r)) := by
  simp only [getCurrentRatio, hres, hbase]

/-- A non-zero base and a resistance other than 1023 give a finite ratio. -/
theorem getCurrentRatio_fin (dev : Sensor) (env : AnalogIn) (clock : Nat)
    (channel : channel_t) (r b : Nat) (hres : getResistance dev env clock channel = r)
    (hbase : getBaseResistance dev channel = b) (hb : b ≠ 0) (hr : r ≠ 1023) :
    getCurrentRatio dev env clock channel =
      .fin ((r : ℚ) / b * (1023 - b) / (1023 - r)) := by
  have h0 : (b : ℚ) ≠ 0 := by exact_mod_cast hb
  have h1 : (1023 : ℚ) - r ≠ 0 := by
    intro h
    have : (r : ℚ) = 1023 := by linarith
    exact hr (by exact_mod_cast this)
  rw [getCurrentRatio_unfold dev env clock channel r b hres hbase]
  simp only [FloatVal.div, FloatVal.mul, FloatVal.sub, h0, h1, if_false]

/-- The ratio when the resistance is 1023 or the base is 0: not-a-number when both
are 1023 or both are 0, an infinity otherwise. -/
theorem getCurrentRatio_degenerate (dev : Sensor) (env : AnalogIn) (clock : Nat)
    (channel : channel_t) (r b : Nat) (hres : getResistance dev env clock channel = r)
    (hbase : getBaseResistance dev channel = b) (hdeg : r = 1023 ∨ b = 0) :
    ((r = 1023 ∧ b = 1023) ∨ (r = 0 ∧ b = 0) → getCurrentRatio dev env clock channel = .nan) ∧
    (¬ ((r = 1023 ∧ b = 1023) ∨ (r = 0 ∧ b = 0)) →
      ∃ s, getCurrentRatio dev env clock channel = .inf s) := by
  rw [getCurrentRatio_unfold dev env clock channel r b hres hbase]
  constructor
  · rintro (⟨rfl, rfl⟩ | ⟨rfl, rfl⟩)
    · norm_num [FloatVal.div, FloatVal.mul, FloatVal.sub]
    · norm_num [FloatVal.div, FloatVal.mul, FloatVal.sub]
  · intro hn
    by_cases hb : b = 0
    · subst hb
      have hr0 : r ≠ 0 := fun h => hn (Or.inr ⟨h, rfl⟩)
      have hrq : (r : ℚ) ≠ 0 := by exact_mod_cast hr0
      by_cases hr : r = 1023
      · subst hr
        exact ⟨false, by norm_num [FloatVal.div, FloatVal.mul, FloatVal.sub]⟩
      · have h1 : (1023 : ℚ) - r ≠ 0 := by
          intro h
          have : (r : ℚ) = 1023 := by linarith
          exact hr (by exact_mod_cast this)
        have hneg : ¬ ((r : ℚ) < 0) := not_lt.mpr (Nat.cast_nonneg r)
        refine ⟨decide ((1023 : ℚ) - r < 0), ?_⟩
        simp [FloatVal.div, FloatVal.mul, FloatVal.sub, hrq, hneg]
        norm_num
    · have hr : r = 1023 := hdeg.resolve_right hb
      subst hr
      have hb1 : b ≠ 1023 := fun h => hn (Or.inl ⟨rfl, h⟩)
      have hbq : (b : ℚ) ≠ 0 := by exact_mod_cast hb
      have h1 : (1023 : ℚ) - b ≠ 0 := by
        intro h
        have : (b : ℚ) = 1023 := by linarith
        exact hb1 (by exact_mod_cast this)
      refine ⟨decide ((1023 : ℚ) / b * (1023 - b) < 0), ?_⟩
      simp [FloatVal.div, FloatVal.mul, FloatVal.sub, hbq, h1]


/-- A not-a-number ratio comes out of `measure` as -1. -/
theorem measure_of_nan (pow : FloatVal → ℚ → FloatVal)
    (hpow : ∀ y, y ≠ 0 → pow .nan y = .nan) (dev : Sensor) (env : AnalogIn) (clock : Nat)
    (gas : gas_t) (h : getCurrentRatio dev env clock (gasChannel gas) = .nan) :
    measure pow dev env clock gas = .fin (-1) := by
  cases gas with
  | CO =>
    have e := hpow (-1179 / 1000) (by norm_num)
    simp only [gasChannel] at h
    simp only [measure, h, e, FloatVal.mul, nanToMinusOne]
  | NO2 =>
    have e := hpow (1007 / 1000) (by norm_num)
    simp only [gasChannel] at h
    simp only [measure, h, e, FloatVal.div, nanToMinusOne]
  | NH3 =>
    have e := hpow (-167 / 100) (by norm_num)
    simp only [gasChannel] at h
    simp only [measure, h, e, FloatVal.div, nanToMinusOne]

/-- An infinite ratio comes out of `measure` as 0 for CO and NH3 and as infinity for
NO2. -/
theorem measure_of_inf (pow : FloatVal → ℚ → FloatVal) (hpow : PowSpec pow) (dev : Sensor)
    (env : AnalogIn) (clock : Nat) (gas : gas_t) (s : Bool)
    (h : getCurrentRatio dev env clock (gasChannel gas) = .inf s) :
    (gas = .NO2 → measure pow dev env clock gas = .inf false) ∧
    (gas ≠ .NO2 → measure pow dev env clock gas = .fin 0) := by
  cases gas with
  | CO =>
    have e : pow (.inf s) (-1179 / 1000) = .fin 0 := by
      cases s
      · exact hpow.posInf_neg _ (by norm_num)
      · exact hpow.negInf_neg _ (by norm_num) (by norm_num)
    simp only [gasChannel] at h
    refine ⟨fun hg => (by cases hg), fun _ => ?_⟩
    simp only [measure, h, e, FloatVal.mul, nanToMinusOne, zero_mul]
  | NO2 =>
    have e : pow (.inf s) (1007 / 1000) = .inf false := by
      cases s
      · exact hpow.posInf_pos _ (by norm_num)
      · exact hpow.negInf_pos _ (by norm_num) (by norm_num)
    simp only [gasChannel] at h
    refine ⟨fun _ => ?_, fun hg => absurd rfl hg⟩
    simp only [measure, h, e, FloatVal.div, nanToMinusOne]
    norm_num
  | NH3 =>
    have e : pow (.inf s) (-167 / 100) = .fin 0 := by
      cases s
      · exact hpow.posInf_neg _ (by norm_num)
      · exact hpow.negInf_neg _ (by norm_num) (by norm_num)
    simp only [gasChannel] at h
    refine ⟨fun hg => (by cases hg), fun _ => ?_⟩
    simp only [measure, h, e, FloatVal.div, nanToMinusOne]
    norm_num

/-- A finite positive ratio comes out of `measure` as a finite positive value. -/
theorem measure_of_pos (pow : FloatVal → ℚ → FloatVal)
    (hpow : ∀ x y, 0 < x → ∃ q, 0 < q ∧ pow (.fin x) y = .fin q) (dev : Sensor)
    (env : AnalogIn) (clock : Nat) (gas : gas_t) (q : ℚ) (hq : 0 < q)
    (h : getCurrentRatio dev env clock (gasChannel gas) = .fin q) :
    ∃ c, 0 < c ∧ measure pow dev env clock gas = .fin c := by
  cases gas with
  | CO =>
    obtain ⟨p, hp, e⟩ := hpow q (-1179 / 1000) hq
    simp only [gasChannel] at h
    refine ⟨p * (4385 / 1000), by positivity, ?_⟩
    simp only [measure, h, e, FloatVal.mul, nanToMinusOne]
  | NO2 =>
    obtain ⟨p, hp, e⟩ := hpow q (1007 / 1000) hq
    simp only [gasChannel] at h
    refine ⟨p / (6855 / 1000), by positivity, ?_⟩
    simp only [measure, h, e, FloatVal.div, nanToMinusOne]
    norm_num
  | NH3 =>
    obtain ⟨p, hp, e⟩ := hpow q (-167 / 100) hq
    simp only [gasChannel] at h
    refine ⟨p / (147 / 100), by positivity, ?_⟩
    simp only [measure, h, e, FloatVal.div, nanToMinusOne]
    norm_num


/-- C11. For every gas, `measure` returns -1 whenever `getCurrentRatio` of the gas's
channel is not-a-number, for every `pow` that maps a not-a-number base to not-a-number;
in particular when the measured resistance and the baseline are both 1023, where the
ratio is 0/0. -/
theorem measure_nan_ratio_gives_sentinel (pow : FloatVal → ℚ → FloatVal)
    (hpow : ∀ y, y ≠ 0 → pow .nan y = .nan) (dev : Sensor) (env : AnalogIn) (clock : Nat)
    (gas : gas_t) :
    (getCurrentRatio dev env clock (gasChannel gas) = .nan →
      measure pow dev env clock gas = .fin (-1)) ∧
    (getResistance dev env clock (gasChannel gas) = 1023 →
      getBaseResistance dev (gasChannel gas) = 1023 →
      getCurrentRatio dev env clock (gasChannel gas) = .nan ∧
        measure pow dev env clock gas = .fin (-1)) := by
  refine ⟨measure_of_nan pow hpow dev env clock gas, fun hres hbase => ?_⟩
  have hn := (getCurrentRatio_degenerate dev env clock (gasChannel gas) 1023 1023 hres hbase
    (Or.inl rfl)).1 (Or.inl ⟨rfl, rfl⟩)
  exact ⟨hn, measure_of_nan pow hpow dev env clock gas hn⟩

/-- Witness of C11: baselines 1023 and every raw sample 1023, gas CO. -/
theorem measure_nan_ratio_gives_sentinel_witness :
    getResistance ⟨1, 2, 3, 1023, 1023, 1023⟩ (fun _ _ => 1023) 0 .CH_CO = 1023 ∧
    measure powSample ⟨1, 2, 3, 1023, 1023, 1023⟩ (fun _ _ => 1023) 0 .CO = .fin (-1) :=
  ⟨getResistance_const _ _ 0 1023 (by decide) (fun _ => ⟨rfl, rfl, rfl⟩) .CH_CO,
    ((measure_nan_ratio_gives_sentinel powSample powSample_spec.nan
      ⟨1, 2, 3, 1023, 1023, 1023⟩ (fun _ _ => 1023) 0 .CO).2
      (getResistance_const _ _ 0 1023 (by decide) (fun _ => ⟨rfl, rfl, rfl⟩) .CH_CO) rfl).2⟩

/-- C12 (counterexample). Baseline 512 and every raw sample 1023: the measured
resistance of the CO channel is 1023, the ratio is plus infinity, and `measure (CO)` is
`pow (inf, -1.179) * 4.385 = 0` for every `pow` with the values of `PowSpec`, not the
sentinel -1. -/
theorem measure_infinite_ratio_is_not_sentinel :
    getResistance ⟨1, 2, 3, 512, 512, 512⟩ (fun _ _ => 1023) 0 .CH_CO = 1023 ∧
    getCurrentRatio ⟨1, 2, 3, 512, 512, 512⟩ (fun _ _ => 1023) 0 .CH_CO = .inf false ∧
    (∀ pow, PowSpec pow →
      measure pow ⟨1, 2, 3, 512, 512, 512⟩ (fun _ _ => 1023) 0 .CO = .fin 0 ∧
      measure pow ⟨1, 2, 3, 512, 512, 512⟩ (fun _ _ => 1023) 0 .CO ≠ .fin (-1)) := by
  have hres : getResistance ⟨1, 2, 3, 512, 512, 512⟩ (fun _ _ => 1023) 0 .CH_CO = 1023 :=
    getResistance_const _ _ 0 1023 (by decide) (fun _ => ⟨rfl, rfl, rfl⟩) .CH_CO
  have hr : getCurrentRatio ⟨1, 2, 3, 512, 512, 512⟩ (fun _ _ => 1023) 0 .CH_CO =
      .inf false := by
    rw [getCurrentRatio_unfold _ _ 0 .CH_CO 1023 512 hres rfl]
    norm_num [FloatVal.div, FloatVal.mul, FloatVal.sub]
  refine ⟨hres, hr, fun pow hpow => ?_⟩
  have hm := (measure_of_inf pow hpow ⟨1, 2, 3, 512, 512, 512⟩ (fun _ _ => 1023) 0 .CO false
    hr).2 (by decide)
  rw [hm]
  exact ⟨rfl, by simp⟩

/-- C12 (amended). For every gas, when the measured resistance of its channel is 1023
or the channel's baseline is 0, `measure` returns -1 exactly when the ratio is
not-a-number, that is when resistance and baseline are both 1023 or both 0; otherwise
the ratio is infinite and `measure` returns what the curve gives for it, 0 for CO and
NH3 and plus infinity for NO2. -/
theorem measure_degenerate_ratio (pow : FloatVal → ℚ → FloatVal) (hpow : PowSpec pow)
    (dev : Sensor) (env : AnalogIn) (clock : Nat) (gas : gas_t)
    (hdeg : getResistance dev env clock (gasChannel gas) = 1023 ∨
      getBaseResistance dev (gasChannel gas) = 0) :
    (measure pow dev env clock gas = .fin (-1) ↔
      (getResistance dev env clock (gasChannel gas) = 1023 ∧
          getBaseResistance dev (gasChannel gas) = 1023) ∨
        (getResistance dev env clock (gasChannel gas) = 0 ∧
          getBaseResistance dev (gasChannel gas) = 0)) ∧
    (¬ ((getResistance dev env clock (gasChannel gas) = 1023 ∧
          getBaseResistance dev (gasChannel gas) = 1023) ∨
        (getResistance dev env clock (gasChannel gas) = 0 ∧
          getBaseResistance dev (gasChannel gas) = 0)) →
      (∃ s, getCurrentRatio dev env clock (gasChannel gas) = .inf s) ∧
      (gas = .NO2 → measure pow dev env clock gas = .inf false) ∧
      (gas ≠ .NO2 → measure pow dev env clock gas = .fin 0)) := by
  have hd := getCurrentRatio_degenerate dev env clock (gasChannel gas) _ _ rfl rfl hdeg
  refine ⟨⟨fun hm => ?_, fun hc => measure_of_nan pow hpow.nan dev env clock gas (hd.1 hc)⟩,
    fun hn => ?_⟩
  · by_contra hn
    obtain ⟨s, hs⟩ := hd.2 hn
    have h2 := measure_of_inf pow hpow dev env clock gas s hs
    by_cases hg : gas = .NO2
    · have := h2.1 hg
      rw [hm] at this
      simp at this
    · have := h2.2 hg
      rw [hm] at this
      simp at this
  · obtain ⟨s, hs⟩ := hd.2 hn
    exact ⟨⟨s, hs⟩, measure_of_inf pow hpow dev env clock gas s hs⟩

/-- Witness of C12 (amended): baseline 512, every raw sample 1023, gas NO2. -/
theorem measure_degenerate_ratio_witness :
    (getResistance ⟨1, 2, 3, 512, 512, 512⟩ (fun _ _ => 1023) 0 (gasChannel .NO2) = 1023 ∨
      getBaseResistance ⟨1, 2, 3, 512, 512, 512⟩ (gasChannel .NO2) = 0) ∧
    measure powSample ⟨1, 2, 3, 512, 512, 512⟩ (fun _ _ => 1023) 0 .NO2 = .inf false :=
  ⟨Or.inl (getResistance_const _ _ 0 1023 (by decide) (fun _ => ⟨rfl, rfl, rfl⟩) .CH_NO2),
    ((measure_degenerate_ratio powSample powSample_spec ⟨1, 2, 3, 512, 512, 512⟩
      (fun _ _ => 1023) 0 .NO2
      (Or.inl (getResistance_const _ _ 0 1023 (by decide) (fun _ => ⟨rfl, rfl, rfl⟩)
        .CH_NO2))).2 (by
          rw [show getBaseResistance ⟨1, 2, 3, 512, 512, 512⟩ (gasChannel .NO2) = 512 from rfl]
          omega)).2.1 rfl⟩

/-- C15. For every gas, when the measured resistance `r` of its channel and the
channel's baseline `b` satisfy `0 < r < 1023` and `0 < b < 1023`, `getCurrentRatio` is a
finite strictly positive number and `measure` returns a finite strictly positive value,
so not the sentinel -1, for every `pow` that is finite and positive at a finite positive
base. -/
theorem measure_positive_in_range (pow : FloatVal → ℚ → FloatVal)
    (hpow : ∀ x y, 0 < x → ∃ q, 0 < q ∧ pow (.fin x) y = .fin q) (dev : Sensor)
    (env : AnalogIn) (clock : Nat) (gas : gas_t) (r b : Nat)
    (hr0 : 0 < r) (hr1 : r < 1023) (hb0 : 0 < b) (hb1 : b < 1023)
    (hres : getResistance dev env clock (gasChannel gas) = r)
    (hbase : getBaseResistance dev (gasChannel gas) = b) :
    ∃ q c : ℚ, 0 < q ∧ getCurrentRatio dev env clock (gasChannel gas) = .fin q ∧
      0 < c ∧ measure pow dev env clock gas = .fin c ∧
      measure pow dev env clock gas ≠ .fin (-1) := by
  have hq := getCurrentRatio_fin dev env clock (gasChannel gas) r b hres hbase
    (by omega) (by omega)
  have hrq : (0 : ℚ) < r := by exact_mod_cast hr0
  have hbq : (0 : ℚ) < b := by exact_mod_cast hb0
  have hr1q : (0 : ℚ) < 1023 - r := by
    have : (r : ℚ) < 1023 := by exact_mod_cast hr1
    linarith
  have hb1q : (0 : ℚ) < 1023 - b := by
    have : (b : ℚ) < 1023 := by exact_mod_cast hb1
    linarith
  have hpos : (0 : ℚ) < (r : ℚ) / b * (1023 - b) / (1023 - r) := by positivity
  obtain ⟨c, hc, hm⟩ := measure_of_pos pow hpow dev env clock gas _ hpos hq
  refine ⟨_, c, hpos, hq, hc, hm, ?_⟩
  rw [hm]
  intro h
  have : c = -1 := by simpa using h
  linarith

/-- Witness of C15: baseline 512, every raw sample 256, gas NH3. -/
theorem measure_positive_in_range_witness :
    ∃ q c : ℚ, 0 < q ∧
      getCurrentRatio ⟨1, 2, 3, 512, 512, 512⟩ (fun _ _ => 256) 0 (gasChannel .NH3) = .fin q ∧
      0 < c ∧ measure powSample ⟨1, 2, 3, 512, 512, 512⟩ (fun _ _ => 256) 0 .NH3 = .fin c ∧
      measure powSample ⟨1, 2, 3, 512, 512, 512⟩ (fun _ _ => 256) 0 .NH3 ≠ .fin (-1) :=
  measure_positive_in_range powSample powSample_spec.pos ⟨1, 2, 3, 512, 512, 512⟩
    (fun _ _ => 256) 0 .NH3 256 512 (by decide) (by decide) (by decide) (by decide)
    (getResistance_const _ _ 0 256 (by decide) (fun _ => ⟨rfl, rfl, rfl⟩) .CH_NH3) rfl

/-- C16. For two measurements on a channel with resistances `r1`, `r2` below 1023 and
baselines `b1`, `b2` strictly between 0 and 1023, the two ratios are the finite values
`(r / b) * (1023 - b) / (1023 - r)`; with equal baselines the ratio is strictly larger
for the larger resistance, and with equal resistances above 0 it is strictly smaller for
the larger baseline. -/
theorem getCurrentRatio_strict_mono (dev1 dev2 : Sensor) (env1 env2 : AnalogIn)
    (clock1 clock2 : Nat) (channel : channel_t) (r1 r2 b1 b2 : Nat)
    (hres1 : getResistance dev1 env1 clock1 channel = r1)
    (hres2 : getResistance dev2 env2 clock2 channel = r2)
    (hbase1 : getBaseResistance dev1 channel = b1)
    (hbase2 : getBaseResistance dev2 channel = b2)
    (hr1 : r1 < 1023) (hr2 : r2 < 1023) (hb1 : 0 < b1 ∧ b1 < 1023)
    (hb2 : 0 < b2 ∧ b2 < 1023) :
    ∃ q1 q2 : ℚ,
      q1 = (r1 : ℚ) / b1 * (1023 - b1) / (1023 - r1) ∧
      q2 = (r2 : ℚ) / b2 * (1023 - b2) / (1023 - r2) ∧
      getCurrentRatio dev1 env1 clock1 channel = .fin q1 ∧
      getCurrentRatio dev2 env2 clock2 channel = .fin q2 ∧
      (b1 = b2 → r1 < r2 → q1 < q2) ∧
      (r1 = r2 → 0 < r1 → b1 < b2 → q2 < q1) := by
  have e1 := getCurrentRatio_fin dev1 env1 clock1 channel r1 b1 hres1 hbase1
    (by omega) (by omega)
  have e2 := getCurrentRatio_fin dev2 env2 clock2 channel r2 b2 hres2 hbase2
    (by omega) (by omega)
  have hb1q : (0 : ℚ) < b1 := by exact_mod_cast hb1.1
  have hb2q : (0 : ℚ) < b2 := by exact_mod_cast hb2.1
  have hr1q : (0 : ℚ) < 1023 - r1 := by
    have : (r1 : ℚ) < 1023 := by exact_mod_cast hr1
    linarith
  have hr2q : (0 : ℚ) < 1023 - r2 := by
    have : (r2 : ℚ) < 1023 := by exact_mod_cast hr2
    linarith
  have hb1u : (0 : ℚ) < 1023 - b1 := by
    have : (b1 : ℚ) < 1023 := by exact_mod_cast hb1.2
    linarith
  have hr1n : (0 : ℚ) ≤ r1 := Nat.cast_nonneg r1
  refine ⟨_, _, rfl, rfl, e1, e2, ?_, ?_⟩
  · intro hb hr
    subst hb
    have hrq : (r1 : ℚ) < r2 := by exact_mod_cast hr
    have key : (r1 : ℚ) / (1023 - r1) < r2 / (1023 - r2) := by
      rw [div_lt_div_iff₀ hr1q hr2q]
      nlinarith
    have hk : (0 : ℚ) < (1023 - b1) / b1 := by positivity
    have e : ∀ r : ℚ, r / b1 * (1023 - b1) / (1023 - r) =
        r / (1023 - r) * ((1023 - b1) / b1) := by
      intro r; ring
    rw [e, e]
    exact mul_lt_mul_of_pos_right key hk
  · intro hr hr0 hb
    subst hr
    have hbq : (b1 : ℚ) < b2 := by exact_mod_cast hb
    have hrq : (0 : ℚ) < r1 := by exact_mod_cast hr0
    have key : ((1023 : ℚ) - b2) / b2 < (1023 - b1) / b1 := by
      rw [div_lt_div_iff₀ hb2q hb1q]
      nlinarith
    have hk : (0 : ℚ) < r1 / (1023 - r1) := by positivity
    have e : ∀ b : ℚ, (r1 : ℚ) / b * (1023 - b) / (1023 - r1) =
        (1023 - b) / b * (r1 / (1023 - r1)) := by
      intro b; ring
    rw [e, e]
    exact mul_lt_mul_of_pos_right key hk

/-- Witness of C16: baseline 512 on both sides, every raw sample 256 against 300. -/
theorem getCurrentRatio_strict_mono_witness :
    ∃ q1 q2 : ℚ,
      q1 = ((256 : Nat) : ℚ) / (512 : Nat) * (1023 - (512 : Nat)) / (1023 - (256 : Nat)) ∧
      q2 = ((300 : Nat) : ℚ) / (512 : Nat) * (1023 - (512 : Nat)) / (1023 - (300 : Nat)) ∧
      getCurrentRatio ⟨1, 2, 3, 512, 512, 512⟩ (fun _ _ => 256) 0 .CH_NH3 = .fin q1 ∧
      getCurrentRatio ⟨1, 2, 3, 512, 512, 512⟩ (fun _ _ => 300) 0 .CH_NH3 = .fin q2 ∧
      (512 = 512 → 256 < 300 → q1 < q2) ∧
      (256 = 300 → 0 < 256 → 512 < 512 → q2 < q1) :=
  getCurrentRatio_strict_mono ⟨1, 2, 3, 512, 512, 512⟩ ⟨1, 2, 3, 512, 512, 512⟩
    (fun _ _ => 256) (fun _ _ => 300) 0 0 .CH_NH3 256 300 512 512
    (getResistance_const _ _ 0 256 (by decide) (fun _ => ⟨rfl, rfl, rfl⟩) .CH_NH3)
    (getResistance_const _ _ 0 300 (by decide) (fun _ => ⟨rfl, rfl, rfl⟩) .CH_NH3)
    rfl rfl (by decide) (by decide) (by decide) (by decide)


end MICS6814
